import Mathlib

/-!
# SpellQuest-AR: verification of the gesture-driven spelling game

Shallow embedding of the SpellQuest-AR repository (two near-duplicate game
screens plus a feedback service) and proofs about it.

* The richer game screen (the unnamed `SpellingAdventure` variant with pinch
  smoothing and grab confirmation) is embedded as `SpellQuest.stepFrame`
  together with its pool construction `SpellQuest.initPool`.
* The simpler game screen (`src/components/SpellingAdventure.tsx`, no
  smoothing, no confirmation counter, periodic scramble) is embedded in the
  `SpellQuest.Simple` namespace.
* The feedback service (`src/services/geminiService.ts`) is embedded as
  `SpellQuest.getSpellingFeedback`.

Numbers are modelled as exact rationals.  The source compares
`Math.sqrt (dx*dx + dy*dy) < threshold`; since both sides are nonnegative this
is encoded square-free as `dx*dx + dy*dy < threshold^2`.  JavaScript's stable
ascending `Array.prototype.sort` is modelled by `List.insertionSort`, which is
stable and sorts ascending, hence produces the same list.
-/

attribute [local semireducible] Rat.ofScientific Rat.mul Rat.inv Rat.add Rat.sub

set_option maxRecDepth 200000

namespace SpellQuest

/-- Constants of the richer game screen. -/
def PINCH_GRAB_THRESHOLD : ℚ := 0.065

def PINCH_RELEASE_THRESHOLD : ℚ := 0.1

def TRAY_Y : ℚ := 220

def HAND_SMOOTH : ℚ := 0.45

def GRAB_CONFIRM_FRAMES : ℕ := 2

def TILE_SIZE : ℚ := 60

def POOL_SPACING : ℚ := 1.3

def TILE_COLORS : List String :=
  ["red", "blue", "green", "yellow", "purple", "orange", "cyan", "pink"]

/-- A tile id.  In the source the id is the template string
`tile-<char>-<charIdx>`; distinct `(char, charIdx)` pairs always produce
distinct strings, so the id is modelled by the pair itself (ids are only ever
compared for equality). -/
abbrev TileId := Char × ℕ

/-- The `LetterTile` interface of `types.ts`. -/
structure LetterTile where
  id : TileId
  char : Char
  x : ℚ
  y : ℚ
  targetX : ℚ
  targetY : ℚ
  color : String
  isDragging : Bool
  inTray : Bool
  trayIndex : Option ℕ
deriving DecidableEq, Repr

/-- A hand landmark as delivered by the tracking collaborator
(normalized coordinates). -/
structure Landmark where
  x : ℚ
  y : ℚ
deriving DecidableEq, Repr

/-- The two fingertip landmarks the game reads (`landmarks[8]`, `landmarks[4]`). -/
structure HandInput where
  idxTip : Landmark
  thumbTip : Landmark
deriving DecidableEq, Repr

/-- One invocation of the per-frame `onResults` callback: the canvas size and
zero or one tracked hand. -/
structure FrameInput where
  width : ℚ
  height : ℚ
  hand : Option HandInput
deriving DecidableEq, Repr

/-- The sound cues fired through `playSound`. -/
inductive Sound where
  | success
  | failure
  | tick
  | click
deriving DecidableEq, Repr

/-- The difficulty setting. -/
inductive Difficulty where
  | EASY
  | MEDIUM
  | HARD
deriving DecidableEq, Repr

structure DiffConfig where
  time : ℕ
  multiplier : ℚ
  label : String

/-- `DIFFICULTY_SETTINGS` of the source. -/
def DIFFICULTY_SETTINGS : Difficulty → DiffConfig
  | .EASY => ⟨45, 1, "Easy"⟩
  | .MEDIUM => ⟨30, 1.5, "Medium"⟩
  | .HARD => ⟨20, 2, "Hard"⟩

/-- The mutable state the per-frame callback works on: the tile refs
(`tiles`, `activeTileId`, `smoothHandPos`, `pinchFrames`, `pinchConfirmed`)
together with the React game state it reads and writes
(`currentWord`, `trayWord`, `isCorrect`, `score`, `timeLeft`, `difficulty`).
The simple variant uses the same state but leaves the smoothing and
confirmation fields inert. -/
structure GameState where
  tiles : List LetterTile
  activeTileId : Option TileId
  smoothHandPos : ℚ × ℚ
  pinchFrames : ℕ
  pinchConfirmed : Bool
  currentWord : String
  trayWord : String
  isCorrect : Bool
  score : ℤ
  timeLeft : ℕ
  difficulty : Difficulty
deriving Repr

/-- Replace the first element satisfying `p` by its image under `f`
(models finding an object with `Array.prototype.find` and mutating it). -/
def updateFirst (p : α → Bool) (f : α → α) : List α → List α
  | [] => []
  | a :: as => if p a then f a :: as else a :: updateFirst p f as

/-- JavaScript's stable ascending sort by `(a.trayIndex || 0) - (b.trayIndex || 0)`.
`insertionSort` is a stable ascending sort, hence extensionally the same. -/
def sortByTrayIndex (l : List LetterTile) : List LetterTile :=
  List.insertionSort (fun a b => a.trayIndex.getD 0 ≤ b.trayIndex.getD 0) l

/-- Tray tiles in tray order (the derived view `updateTrayWord` starts from). -/
def trayTilesSorted (tiles : List LetterTile) : List LetterTile :=
  sortByTrayIndex (tiles.filter (·.inTray))

/-- The tray word: in-tray tiles' characters joined in ascending `trayIndex`
order. -/
def trayWordOf (tiles : List LetterTile) : String :=
  String.mk ((trayTilesSorted tiles).map (·.char))

/-- `updateTrayWord` of the source: recompute the tray word, and on an exact
non-empty match mark the round solved and add the score delta.  The timer
clearing and the sparkle particles are effects outside the game state; the
success cue is returned as a sound event. -/
def updateTrayWord (s : GameState) : GameState × List Sound :=
  let word := trayWordOf s.tiles
  if word = s.currentWord ∧ 0 < word.length then
    let diffConfig := DIFFICULTY_SETTINGS s.difficulty
    let timeBonus : ℤ := ⌊(s.timeLeft : ℚ) * diffConfig.multiplier⌋
    ({ s with
        trayWord := word
        isCorrect := true
        score := s.score + ⌊(word.length : ℚ) * 10 * diffConfig.multiplier⌋ + timeBonus },
     [Sound.success])
  else
    ({ s with trayWord := word, isCorrect := false }, [])

/-- Mirrored x coordinate (`1 - lm.x`). -/
def mirroredX (lm : Landmark) : ℚ := 1 - lm.x

/-- The raw cursor sample: midpoint of the mirrored fingertips in canvas
coordinates. -/
def rawCursor (w h : ℚ) (hnd : HandInput) : ℚ × ℚ :=
  ((mirroredX hnd.idxTip * w + mirroredX hnd.thumbTip * w) / 2,
   (hnd.idxTip.y * h + hnd.thumbTip.y * h) / 2)

/-- Squared fingertip distance (the source compares
`sqrt (dx*dx + dy*dy) < t`; the equivalent square-free form is used). -/
def pinchDistSq (hnd : HandInput) : ℚ :=
  let dx := mirroredX hnd.idxTip - mirroredX hnd.thumbTip
  let dy := hnd.idxTip.y - hnd.thumbTip.y
  dx * dx + dy * dy

/-- Hysteresis: the release threshold applies while a tile is active, the
(grab) threshold otherwise. -/
def pinchThreshold (active : Bool) : ℚ :=
  if active then PINCH_RELEASE_THRESHOLD else PINCH_GRAB_THRESHOLD

/-- The raw pinch boolean of the richer variant. -/
def rawPinchingOf (active : Bool) (hnd : HandInput) : Bool :=
  decide (pinchDistSq hnd < pinchThreshold active ^ 2)

/-- The saturating consecutive-pinch-frame counter update. -/
def pinchFramesNext (raw : Bool) (pf : ℕ) : ℕ :=
  if raw then min (pf + 1) (GRAB_CONFIRM_FRAMES + 1) else 0

/-- The confirmation flag update (`pfNew` is the already-updated counter;
the flag survives a counter reset only while a tile is active). -/
def pinchConfirmedNext (raw active : Bool) (pfNew : ℕ) (pc : Bool) : Bool :=
  if raw then (if GRAB_CONFIRM_FRAMES ≤ pfNew then true else pc)
  else if active then pc else false

/-- The effective pinch signal handed to the drag controller. -/
def effectivePinch (raw pc active : Bool) : Bool :=
  raw && (pc || active)

/-- The square hit box test around a tile's current position. -/
def hitTestAt (hp : ℚ × ℚ) (t : LetterTile) : Bool :=
  decide (|t.x - hp.1| < TILE_SIZE / 2 ∧ |t.y - hp.2| < TILE_SIZE / 2)

/-- The other tray tiles (`trayTiles` in the source's release block): tiles
still in the tray, excluding the released one, sorted by tray index.  Note
the released tile itself is excluded by id, not removed from the tray. -/
def trayOthers (aid : TileId) (tiles : List LetterTile) : List LetterTile :=
  sortByTrayIndex (tiles.filter (fun t => t.inTray && decide (t.id ≠ aid)))

/-- The tray order after a drop inside the band: the other tray tiles in
their previous relative order, then the released tile
(`trayTiles.concat(tile)`), as a list of ids. -/
def releaseOrder (aid : TileId) (tiles : List LetterTile) : List TileId :=
  (trayOthers aid tiles).map (·.id) ++ [aid]

/-- `startX` of the source's reflow (slot row centered on the canvas). -/
def releaseStartX (width : ℚ) (aid : TileId) (tiles : List LetterTile) : ℚ :=
  let totalWidth := (((trayOthers aid tiles).length : ℚ) + 1) * (TILE_SIZE * 1.1)
  (width - totalWidth) / 2 + (TILE_SIZE * 1.1) / 2

/-- The per-tile effect of the reflow `forEach`: the `i`-th member of
`trayTiles.concat(tile)` receives `trayIndex i` and the `i`-th slot target;
every other tile is untouched.  The released tile additionally has its
`isDragging` cleared (done just before the branch in the source). -/
def releaseAssign (startX : ℚ) (aid : TileId) (order : List TileId)
    (t : LetterTile) : LetterTile :=
  if t.id ∈ order then
    let i := List.indexOf t.id order
    { t with
      isDragging := if t.id = aid then false else t.isDragging,
      inTray := true,
      trayIndex := some i,
      targetX := startX + (i : ℚ) * (TILE_SIZE * 1.1) - (TILE_SIZE * 1.1) / 2,
      targetY := TRAY_Y }
  else t

/-- The release block of `onResults` (the `else if (activeTileId.current)`
branch): clear the dragging flag, decide tray membership by the vertical
capture band around the tray line, and on a drop inside the band reflow the
whole tray (old tiles keep their relative order, the dropped tile is
appended), playing the placement cue only when the tile was not already in
the tray.  On a drop outside the band only the released tile is touched. -/
def releaseTile (width : ℚ) (aid : TileId) (tiles : List LetterTile) :
    List LetterTile × List Sound :=
  match tiles.find? (fun t => decide (t.id = aid)) with
  | none => (tiles, [])
  | some tile =>
    if |tile.y - TRAY_Y| < 100 then
      (tiles.map (releaseAssign (releaseStartX width aid tiles) aid
         (releaseOrder aid tiles)),
       if tile.inTray then [] else [Sound.click])
    else
      (updateFirst (fun t => decide (t.id = aid))
        (fun t => { t with isDragging := false, inTray := false, trayIndex := none })
        tiles, [])

/-- The outcome of the drag controller for one frame. -/
structure DragResult where
  tiles : List LetterTile
  active : Option TileId
  sounds : List Sound
  released : Bool
deriving Repr

/-- The drag controller of `onResults`, shared verbatim by both variants:
grab (hit test on the first matching tile), drag (position follows the
cursor), or release (a Dragging→Idle transition, `released = true`). -/
def dragStep (width : ℚ) (handPos : Option (ℚ × ℚ)) (isPinching : Bool)
    (s : GameState) : DragResult :=
  if handPos.isSome && isPinching && !s.isCorrect then
    match handPos, s.activeTileId with
    | some hp, none =>
      (match s.tiles.find? (hitTestAt hp) with
       | some clicked =>
         { tiles := updateFirst (hitTestAt hp)
             (fun t => { t with isDragging := true }) s.tiles,
           active := some clicked.id, sounds := [Sound.click], released := false }
       | none =>
         { tiles := s.tiles, active := none, sounds := [], released := false })
    | some hp, some aid =>
      { tiles := updateFirst (fun t => decide (t.id = aid))
          (fun t => { t with x := hp.1, y := hp.2 }) s.tiles,
        active := some aid, sounds := [], released := false }
    | none, a =>
      { tiles := s.tiles, active := a, sounds := [], released := false }
  else
    match s.activeTileId with
    | some aid =>
      let r := releaseTile width aid s.tiles
      { tiles := r.1, active := none, sounds := r.2, released := true }
    | none =>
      { tiles := s.tiles, active := none, sounds := [], released := false }

/-- The settle easing for a single tile: a non-dragging tile moves 15% of the
way toward its target each frame. -/
def settleTile (t : LetterTile) : LetterTile :=
  if t.isDragging then t
  else { t with x := t.x + (t.targetX - t.x) * 0.15,
                y := t.y + (t.targetY - t.y) * 0.15 }

/-- The settle animator: every non-dragging tile eases toward its target. -/
def settle (tiles : List LetterTile) : List LetterTile :=
  tiles.map settleTile

/-- The per-frame hand processing of the richer variant: smoothing and raw
pinch classification while a hand is tracked; when no hand is tracked only
the pinch bookkeeping is reset (the source leaves `smoothHandPos` unchanged,
despite its comment). -/
structure HandState where
  pos : Option (ℚ × ℚ)
  raw : Bool
  smooth : ℚ × ℚ
  pf : ℕ
  pc : Bool
deriving Repr

def handProcess (inp : FrameInput) (s : GameState) : HandState :=
  match inp.hand with
  | some hnd =>
    let raw := rawCursor inp.width inp.height hnd
    let sm : ℚ × ℚ :=
      (s.smoothHandPos.1 + (raw.1 - s.smoothHandPos.1) * HAND_SMOOTH,
       s.smoothHandPos.2 + (raw.2 - s.smoothHandPos.2) * HAND_SMOOTH)
    { pos := some sm, raw := rawPinchingOf s.activeTileId.isSome hnd,
      smooth := sm, pf := s.pinchFrames, pc := s.pinchConfirmed }
  | none =>
    { pos := none, raw := false, smooth := s.smoothHandPos, pf := 0, pc := false }

/-- The updated consecutive-pinch-frame counter of a frame. -/
def pinchFrames1 (inp : FrameInput) (s : GameState) : ℕ :=
  pinchFramesNext (handProcess inp s).raw (handProcess inp s).pf

/-- The updated confirmation flag of a frame. -/
def pinchConfirmed1 (inp : FrameInput) (s : GameState) : Bool :=
  pinchConfirmedNext (handProcess inp s).raw s.activeTileId.isSome
    (pinchFrames1 inp s) (handProcess inp s).pc

/-- The drag controller applied to a frame's processed hand signal. -/
def dragStepOf (inp : FrameInput) (s : GameState) : DragResult :=
  dragStep inp.width (handProcess inp s).pos
    (effectivePinch (handProcess inp s).raw (pinchConfirmed1 inp s)
      s.activeTileId.isSome) s

/-- One invocation of the richer variant's `onResults`: hand processing with
exponential smoothing, pinch classification with hysteresis and confirmation
debouncing, drag controller, word evaluation on release, settle animation. -/
def stepFrame (inp : FrameInput) (s : GameState) : GameState × List Sound :=
  let dr := dragStepOf inp s
  let s1 := { s with
    tiles := dr.tiles
    activeTileId := dr.active
    smoothHandPos := (handProcess inp s).smooth
    pinchFrames := pinchFrames1 inp s
    pinchConfirmed := pinchConfirmed1 inp s }
  let s2p := if dr.released then updateTrayWord s1 else (s1, [])
  ({ s2p.1 with tiles := settle s2p.1.tiles }, dr.sounds ++ s2p.2)

/-! ## Pool construction (richer variant) -/

def ALPHABET : List Char := "ABCDEFGHIJKLMNOPQRSTUVWXYZ".toList

/-- The distinct characters of a list in first-occurrence order
(the key order of the `wordLetterCounts` object built with insertion order). -/
def firstOccAux : List Char → List Char → List Char
  | [], _ => []
  | c :: rest, seen =>
    if c ∈ seen then firstOccAux rest seen else c :: firstOccAux rest (c :: seen)

def firstOccurrences (l : List Char) : List Char := firstOccAux l []

/-- The extra copies injected for letters the target word needs more than
once (`extras = count - 1` per distinct letter). -/
def extraLetters (word : List Char) : List Char :=
  (firstOccurrences word).flatMap (fun ch => List.replicate (word.count ch - 1) ch)

/-- `[a[i], a[j]] = [a[j], a[i]]`: swap two positions of a list (identity when
either index is out of range, which never happens in the shuffle loop). -/
def swapL (l : List α) (i j : ℕ) : List α :=
  match l[i]?, l[j]? with
  | some a, some b => (l.set i b).set j a
  | _, _ => l

/-- The Fisher–Yates loop of `shuffleArray`, with the random draws supplied
as an oracle `js`: at loop counter `i` the source picks
`j = floor(random() * (i+1)) ∈ [0, i]`, modelled as `js i % (i+1)`. -/
def shuffleAux (js : ℕ → ℕ) : ℕ → List α → List α
  | 0, l => l
  | i + 1, l => shuffleAux js i (swapL l (i + 1) (js (i + 1) % (i + 2)))

def shuffleArray (js : ℕ → ℕ) (xs : List α) : List α :=
  shuffleAux js (xs.length - 1) xs

/-- Pool slot position for creation index `k` of a pool of `total` letters:
rows of at most 9, each row horizontally centered, stacked above a 40px
bottom margin.  (For `total = 26` this is exactly the fixed 9/9/8 layout of
the simple variant.) -/
def poolPos (total : ℕ) (w h : ℚ) (k : ℕ) : ℚ × ℚ :=
  let perRow := 9
  let numRows := (total + perRow - 1) / perRow
  let poolHeight := (numRows : ℚ) * TILE_SIZE * POOL_SPACING
  let poolStartY := h - poolHeight - 40
  let row := k / perRow
  let col := k % perRow
  let colsInRow := min perRow (total - row * perRow)
  let rowWidth := (colsInRow : ℚ) * TILE_SIZE * POOL_SPACING
  let rowStartX := (w - rowWidth) / 2 + TILE_SIZE * POOL_SPACING / 2
  (rowStartX + (col : ℚ) * TILE_SIZE * POOL_SPACING - TILE_SIZE * POOL_SPACING / 2,
   poolStartY + (row : ℚ) * TILE_SIZE * POOL_SPACING)

/-- One freshly created tile (id `tile-<char>-<charIdx>` modelled as the
pair, color cycling through the palette by creation index). -/
def mkTile (total : ℕ) (w h : ℚ) (k : ℕ) (c : Char) : LetterTile :=
  let pos := poolPos total w h k
  { id := (c, k), char := c, x := pos.1, y := pos.2,
    targetX := pos.1, targetY := pos.2,
    color := TILE_COLORS.getD (k % TILE_COLORS.length) "red",
    isDragging := false, inTray := false, trayIndex := none }

/-- `initPool` of the richer variant: the full alphabet plus the extra copies
needed for the (uppercased) target word, shuffled, laid out in rows of 9. -/
def initPool (w h : ℚ) (word : String) (js : ℕ → ℕ) : List LetterTile :=
  let allLetters :=
    shuffleArray js (ALPHABET ++ extraLetters (word.toList.map Char.toUpper))
  allLetters.enum.map (fun p => mkTile allLetters.length w h p.1 p.2)

/-- The state right after the first round is set up (`nextWord` on mount):
fresh pool, no active tile, pinch bookkeeping at rest, timer at the
difficulty's limit. -/
def initState (w h : ℚ) (word : String) (js : ℕ → ℕ) (d : Difficulty) : GameState :=
  { tiles := initPool w h word js
    activeTileId := none
    smoothHandPos := (0, 0)
    pinchFrames := 0
    pinchConfirmed := false
    currentWord := word
    trayWord := ""
    isCorrect := false
    score := 0
    timeLeft := (DIFFICULTY_SETTINGS d).time
    difficulty := d }

/-- `nextWord` mid-session: new target word, fresh pool, tray word and solved
flag reset, timer restarted.  The refs `activeTileId`, `smoothHandPos`,
`pinchFrames`, `pinchConfirmed` are (deliberately, per the source) left
untouched, so a round change can happen mid-drag. -/
def nextWordUpdate (w h : ℚ) (word : String) (js : ℕ → ℕ) (s : GameState) : GameState :=
  { s with
    currentWord := word
    trayWord := ""
    isCorrect := false
    tiles := initPool w h word js
    timeLeft := (DIFFICULTY_SETTINGS s.difficulty).time }

/-- The states the richer variant can reach: an initial round, any number of
per-frame steps, and round replacements (`nextWord`), which may happen while
a drag is active. -/
inductive Reach : GameState → Prop where
  | init (w h : ℚ) (word : String) (js : ℕ → ℕ) (d : Difficulty) :
      Reach (initState w h word js d)
  | frame {s : GameState} (inp : FrameInput) : Reach s → Reach (stepFrame inp s).1
  | round {s : GameState} (w h : ℚ) (word : String) (js : ℕ → ℕ) :
      Reach s → Reach (nextWordUpdate w h word js s)

/-! ## The simple variant (`src/components/SpellingAdventure.tsx`)

Same data model and drag controller, but: tighter thresholds, no cursor
smoothing, no confirmation counter, a fixed 26-letter pool with no injected
duplicates, and a periodic scramble of the non-tray tiles. -/

namespace Simple

def PINCH_GRAB_THRESHOLD : ℚ := 0.05

def PINCH_RELEASE_THRESHOLD : ℚ := 0.08

/-- The raw-and-only pinch boolean of the simple variant (hysteresis, no
debouncing). -/
def isPinchingOf (active : Bool) (hnd : HandInput) : Bool :=
  decide (pinchDistSq hnd <
    (if active then PINCH_RELEASE_THRESHOLD else PINCH_GRAB_THRESHOLD) ^ 2)

/-- The simple variant's pinch boolean for a frame (false with no hand). -/
def framePinch (inp : FrameInput) (s : GameState) : Bool :=
  match inp.hand with
  | some hnd => isPinchingOf s.activeTileId.isSome hnd
  | none => false

/-- The drag controller applied to a frame's raw hand signal. -/
def dragStepOf (inp : FrameInput) (s : GameState) : DragResult :=
  dragStep inp.width (inp.hand.map (rawCursor inp.width inp.height))
    (framePinch inp s) s

/-- One invocation of the simple variant's `onResults`: raw cursor (no
smoothing), pinch with hysteresis (no confirmation), drag controller, word
evaluation on release, settle animation. -/
def stepFrame (inp : FrameInput) (s : GameState) : GameState × List Sound :=
  let dr := dragStepOf inp s
  let s1 := { s with tiles := dr.tiles, activeTileId := dr.active }
  let s2p := if dr.released then updateTrayWord s1 else (s1, [])
  ({ s2p.1 with tiles := settle s2p.1.tiles }, dr.sounds ++ s2p.2)

/-- `initPool` of the simple variant: exactly the shuffled A–Z alphabet in
the fixed 9/9/8 layout; no duplicates are injected for the target word. -/
def initPool (w h : ℚ) (js : ℕ → ℕ) : List LetterTile :=
  let shuffledLetters := shuffleArray js ALPHABET
  shuffledLetters.enum.map (fun p => mkTile 26 w h p.1 p.2)

/-- `scramblePool`: reshuffle the tiles not in the tray and reassign their
target slots over the 9/9/8 grid; tray tiles are untouched; the tile list
becomes shuffled pool tiles followed by tray tiles. -/
def scramblePool (w h : ℚ) (js : ℕ → ℕ) (s : GameState) : GameState :=
  let poolTiles := s.tiles.filter (fun t => !t.inTray)
  let trayTs := s.tiles.filter (fun t => t.inTray)
  let shuffledPool := shuffleArray js poolTiles
  let reassigned := shuffledPool.enum.map (fun p =>
    if p.1 < 26 then
      let pos := poolPos 26 w h p.1
      { p.2 with targetX := pos.1, targetY := pos.2 }
    else p.2)
  { s with tiles := reassigned ++ trayTs }

def initState (w h : ℚ) (word : String) (js : ℕ → ℕ) (d : Difficulty) : GameState :=
  { tiles := initPool w h js
    activeTileId := none
    smoothHandPos := (0, 0)
    pinchFrames := 0
    pinchConfirmed := false
    currentWord := word
    trayWord := ""
    isCorrect := false
    score := 0
    timeLeft := (DIFFICULTY_SETTINGS d).time
    difficulty := d }

def nextWordUpdate (w h : ℚ) (word : String) (js : ℕ → ℕ) (s : GameState) : GameState :=
  { s with
    currentWord := word
    trayWord := ""
    isCorrect := false
    tiles := initPool w h js
    timeLeft := (DIFFICULTY_SETTINGS s.difficulty).time }

/-- Reachable states of the simple variant: initial round, per-frame steps,
periodic scrambles (the interval skips scrambling while the round is solved),
and round replacements. -/
inductive Reach : GameState → Prop where
  | init (w h : ℚ) (word : String) (js : ℕ → ℕ) (d : Difficulty) :
      Reach (initState w h word js d)
  | frame {s : GameState} (inp : FrameInput) : Reach s → Reach (stepFrame inp s).1
  | scramble {s : GameState} (w h : ℚ) (js : ℕ → ℕ) :
      Reach s → s.isCorrect = false → Reach (scramblePool w h js s)
  | round {s : GameState} (w h : ℚ) (word : String) (js : ℕ → ℕ) :
      Reach s → Reach (nextWordUpdate w h word js s)

end Simple

/-! ## The feedback service (`src/services/geminiService.ts`)

The network call and `JSON.parse` are external effects; they enter the
embedding as oracles: `api` is the outcome of the `generateContent` call
(`Except.error` models a thrown error with its message, `Except.ok` carries
the optional `response.text`), and `parseJson` is the outcome of parsing a
given string.  Everything else is the source's own control flow. -/

/-- The `SpellingFeedback` interface of `types.ts`. -/
structure SpellingFeedback where
  word : String
  isValid : Bool
  definition : Option String := none
  sentence : Option String := none
  suggestion : Option String := none
  emoji : Option String := none
deriving DecidableEq, Repr

/-- The `DebugInfo` interface of `types.ts`. -/
structure DebugInfo where
  latency : ℕ
  screenshotBase64 : String
  promptContext : String
  rawResponse : String
  parsedResponse : Option SpellingFeedback := none
  error : Option String := none
  timestamp : String
deriving DecidableEq, Repr

/-- The `AiResponse` interface of `types.ts`. -/
structure AiResponse where
  feedback : SpellingFeedback
  debug : DebugInfo
deriving DecidableEq, Repr

/-- `getSpellingFeedback`: total by construction — every failure of the API
call or of JSON parsing is caught and turned into a fallback feedback value,
with the error text recorded in the `debug.error` field only. -/
def getSpellingFeedback (imageBase64 currentTrayLetters : String)
    (availableLetters : List String) (timestamp : String) (latencyMs : ℕ)
    (api : Except String (Option String))
    (parseJson : String → Except String SpellingFeedback) : AiResponse :=
  let debug0 : DebugInfo :=
    { latency := 0
      screenshotBase64 := imageBase64
      promptContext := "Tray: \"" ++ currentTrayLetters ++ "\", Pool: [" ++
        String.intercalate ", " availableLetters ++ "]"
      rawResponse := ""
      timestamp := timestamp }
  match api with
  | .error errMsg =>
    { feedback := { word := currentTrayLetters, isValid := false,
                    suggestion := some "Coach is resting." }
      debug := { debug0 with
        error := some (if errMsg = "" then "Unknown API Error" else errMsg) } }
  | .ok payload =>
    let text := match payload with
      | some t => if t = "" then "\x7b\x7d" else t
      | none => "\x7b\x7d"
    match parseJson text with
    | .ok json =>
      { feedback := json
        debug := { debug0 with
          latency := latencyMs, rawResponse := text, parsedResponse := some json } }
    | .error msg =>
      { feedback := { word := currentTrayLetters, isValid := false,
                      suggestion := some "Keep trying!" }
        debug := { debug0 with
          latency := latencyMs, rawResponse := text,
          error := some ("JSON Parse Error: " ++ msg) } }

/-! ## Concrete fixtures used by the claim-level theorems and witnesses -/

/-- A frame with no tracked hand. -/
def frameNoHand : FrameInput := { width := 900, height := 700, hand := none }

/-- A hand sample whose raw cursor is (100, 100) on a 1000-square canvas. -/
def handSample : HandInput :=
  { idxTip := { x := 0.9, y := 0.1 }, thumbTip := { x := 0.9, y := 0.1 } }

def reacquireFrame : FrameInput :=
  { width := 1000, height := 1000, hand := some handSample }

/-- A clearly pinching hand (fingertip distance 0.02). -/
def pinchHand : HandInput :=
  { idxTip := { x := 0.5, y := 0.5 }, thumbTip := { x := 0.52, y := 0.5 } }

def pinchFrame : FrameInput := { width := 1000, height := 1000, hand := some pinchHand }

/-- A quiescent state with an empty pool. -/
def emptyState : GameState :=
  { tiles := [], activeTileId := none, smoothHandPos := (0, 0), pinchFrames := 0,
    pinchConfirmed := false, currentWord := "CAT", trayWord := "", isCorrect := false,
    score := 0, timeLeft := 30, difficulty := .MEDIUM }

/-- A tray tile that has been grabbed (still `inTray`, per the source) and
dragged far above the capture band. -/
def dragTileA : LetterTile :=
  { id := ('A', 0), char := 'A', x := 100, y := 500, targetX := 100, targetY := 500,
    color := "red", isDragging := true, inTray := true, trayIndex := some 0 }

def trayTileB : LetterTile :=
  { id := ('B', 1), char := 'B', x := 300, y := 220, targetX := 300, targetY := 220,
    color := "blue", isDragging := false, inTray := true, trayIndex := some 1 }

def trayTileC : LetterTile :=
  { id := ('C', 2), char := 'C', x := 366, y := 220, targetX := 366, targetY := 220,
    color := "green", isDragging := false, inTray := true, trayIndex := some 2 }

/-- Mid-drag of a former tray tile, currently far outside the capture band. -/
def dropOutsideState : GameState :=
  { tiles := [dragTileA, trayTileB, trayTileC], activeTileId := some ('A', 0),
    smoothHandPos := (0, 0), pinchFrames := 3, pinchConfirmed := true,
    currentWord := "XYZ", trayWord := "ABC", isCorrect := false, score := 0,
    timeLeft := 10, difficulty := .MEDIUM }

def lowerTileC : LetterTile :=
  { id := ('c', 0), char := 'c', x := 100, y := 220, targetX := 100, targetY := 220,
    color := "red", isDragging := false, inTray := true, trayIndex := some 0 }

def lowerTileA : LetterTile :=
  { id := ('a', 1), char := 'a', x := 166, y := 220, targetX := 166, targetY := 220,
    color := "blue", isDragging := false, inTray := true, trayIndex := some 1 }

def lowerTileT : LetterTile :=
  { id := ('t', 2), char := 't', x := 232, y := 220, targetX := 232, targetY := 220,
    color := "green", isDragging := false, inTray := true, trayIndex := some 2 }

/-- A tray spelling "cat" against the target "CAT". -/
def lowercaseState : GameState :=
  { tiles := [lowerTileC, lowerTileA, lowerTileT], activeTileId := none,
    smoothHandPos := (0, 0), pinchFrames := 0, pinchConfirmed := false,
    currentWord := "CAT", trayWord := "", isCorrect := false, score := 0,
    timeLeft := 10, difficulty := .MEDIUM }

def dogTileD : LetterTile :=
  { id := ('D', 0), char := 'D', x := 100, y := 220, targetX := 100, targetY := 220,
    color := "red", isDragging := false, inTray := true, trayIndex := some 0 }

def dogTileO : LetterTile :=
  { id := ('O', 1), char := 'O', x := 166, y := 220, targetX := 166, targetY := 220,
    color := "blue", isDragging := false, inTray := true, trayIndex := some 1 }

def dogTileG : LetterTile :=
  { id := ('G', 2), char := 'G', x := 232, y := 220, targetX := 232, targetY := 220,
    color := "green", isDragging := false, inTray := true, trayIndex := some 2 }

/-- A solved-on-next-evaluation state: tray "DOG", target "DOG", MEDIUM, 20s left. -/
def dogState : GameState :=
  { tiles := [dogTileD, dogTileO, dogTileG], activeTileId := none,
    smoothHandPos := (0, 0), pinchFrames := 0, pinchConfirmed := false,
    currentWord := "DOG", trayWord := "", isCorrect := false, score := 0,
    timeLeft := 20, difficulty := .MEDIUM }

/-- A tray tile re-grabbed and held just above its slot, inside the band. -/
def regrabTileR : LetterTile :=
  { id := ('R', 0), char := 'R', x := 120, y := 250, targetX := 120, targetY := 220,
    color := "red", isDragging := true, inTray := true, trayIndex := some 0 }

def regrabTileS : LetterTile :=
  { id := ('S', 1), char := 'S', x := 186, y := 220, targetX := 186, targetY := 220,
    color := "blue", isDragging := false, inTray := true, trayIndex := some 1 }

def regrabState : GameState :=
  { tiles := [regrabTileR, regrabTileS], activeTileId := some ('R', 0),
    smoothHandPos := (0, 0), pinchFrames := 0, pinchConfirmed := true,
    currentWord := "XYZ", trayWord := "RS", isCorrect := false, score := 0,
    timeLeft := 10, difficulty := .MEDIUM }

/-! ## General lemmas: shuffling, first-match update, indexing -/

theorem cons_perm_set {α : Type _} (a b : α) :
    ∀ (t : List α) (m : ℕ), t[m]? = some b → (a :: t).Perm (b :: t.set m a) := by
  intro t
  induction t with
  | nil => intro m h; simp at h
  | cons c t ih =>
    intro m h
    cases m with
    | zero =>
      simp only [List.getElem?_cons_zero, Option.some.injEq] at h
      rw [← h]
      simp only [List.set_cons_zero]
      exact List.Perm.swap c a t
    | succ m =>
      simp only [List.getElem?_cons_succ] at h
      simp only [List.set_cons_succ]
      exact ((List.Perm.swap c a t).trans ((ih m h).cons c)).trans
        (List.Perm.swap b c (t.set m a))

theorem swapL_perm {α : Type _} : ∀ (l : List α) (i j : ℕ), (swapL l i j).Perm l := by
  intro l
  induction l with
  | nil => intro i j; simp [swapL]
  | cons c t ih =>
    intro i j
    cases i with
    | zero =>
      cases j with
      | zero => simp [swapL]
      | succ m =>
        rcases h : t[m]? with _ | b
        · simp [swapL, h]
        · simp only [swapL, List.getElem?_cons_zero, List.getElem?_cons_succ, h,
            List.set_cons_zero, List.set_cons_succ]
          exact (cons_perm_set c b t m h).symm
    | succ n =>
      cases j with
      | zero =>
        rcases h : t[n]? with _ | a
        · simp [swapL, h]
        · simp only [swapL, List.getElem?_cons_zero, List.getElem?_cons_succ, h,
            List.set_cons_zero, List.set_cons_succ]
          exact (cons_perm_set c a t n h).symm
      | succ m =>
        rcases h1 : t[n]? with _ | a
        · simp [swapL, h1]
        · rcases h2 : t[m]? with _ | b
          · simp [swapL, h1, h2]
          · simp only [swapL, List.getElem?_cons_succ, h1, h2, List.set_cons_succ]
            have h3 := ih n m
            simp only [swapL, h1, h2] at h3
            exact h3.cons c

theorem shuffleAux_perm {α : Type _} (js : ℕ → ℕ) :
    ∀ (i : ℕ) (l : List α), (shuffleAux js i l).Perm l := by
  intro i
  induction i with
  | zero => intro l; simp [shuffleAux]
  | succ i ih =>
    intro l
    exact (ih _).trans (swapL_perm l (i + 1) (js (i + 1) % (i + 2)))

theorem shuffleArray_perm {α : Type _} (js : ℕ → ℕ) (xs : List α) :
    (shuffleArray js xs).Perm xs :=
  shuffleAux_perm js (xs.length - 1) xs

theorem updateFirst_decomp {α : Type _} (p : α → Bool) (f : α → α) :
    ∀ {l : List α} {a : α}, l.find? p = some a →
      ∃ l₁ l₂, l = l₁ ++ a :: l₂ ∧ (∀ x ∈ l₁, p x = false) ∧
        updateFirst p f l = l₁ ++ f a :: l₂ := by
  intro l
  induction l with
  | nil => intro a h; simp at h
  | cons c t ih =>
    intro a h
    by_cases hc : p c = true
    · rw [List.find?_cons_of_pos _ hc] at h
      obtain rfl : c = a := by simpa using h
      exact ⟨[], t, by simp, by simp, by simp [updateFirst, hc]⟩
    · rw [List.find?_cons_of_neg _ (by simpa using hc)] at h
      obtain ⟨l₁, l₂, hl, h₁, h₂⟩ := ih h
      refine ⟨c :: l₁, l₂, by simp [hl], ?_, ?_⟩
      · intro x hx
        rcases List.mem_cons.mp hx with rfl | hx
        · simpa using hc
        · exact h₁ x hx
      · simp [updateFirst, hc, h₂]

theorem updateFirst_eq_of_find?_none {α : Type _} (p : α → Bool) (f : α → α) :
    ∀ {l : List α}, l.find? p = none → updateFirst p f l = l := by
  intro l
  induction l with
  | nil => intro h; simp [updateFirst]
  | cons c t ih =>
    intro h
    rw [List.find?_eq_none] at h
    have hc : p c = false := by
      have := h c (List.mem_cons_self c t)
      simpa using this
    rw [updateFirst, if_neg (by simp [hc])]
    rw [ih (List.find?_eq_none.mpr (fun x hx => h x (List.mem_cons_of_mem c hx)))]

theorem updateFirst_map_eq {α β : Type _} (g : α → β) (p : α → Bool) (f : α → α)
    (hg : ∀ a, g (f a) = g a) : ∀ (l : List α), (updateFirst p f l).map g = l.map g := by
  intro l
  induction l with
  | nil => simp [updateFirst]
  | cons c t ih =>
    by_cases hc : p c = true
    · simp [updateFirst, hc, hg]
    · simp [updateFirst, hc, ih]

theorem indexOf_getElem_self {α : Type _} [BEq α] [LawfulBEq α] :
    ∀ {l : List α}, l.Nodup → ∀ (i : ℕ) (hi : i < l.length), List.indexOf l[i] l = i := by
  intro l
  induction l with
  | nil => intro _ i hi; simp at hi
  | cons a t ih =>
    intro h i hi
    cases i with
    | zero =>
      rw [List.getElem_cons_zero, List.indexOf_cons]
      simp
    | succ i =>
      have hi2 : i < t.length := by simpa using hi
      have hit : t[i] ∈ t := List.getElem_mem hi2
      have hne : (a == t[i]) = false := by
        simp only [beq_eq_false_iff_ne]
        intro heq
        exact (List.nodup_cons.mp h).1 (heq ▸ hit)
      simp only [List.getElem_cons_succ, List.indexOf_cons, hne, cond_false]
      rw [ih (List.nodup_cons.mp h).2 i hi2]

theorem map_indexOf_self {α : Type _} [BEq α] [LawfulBEq α] {l : List α} (h : l.Nodup) :
    l.map (fun a => List.indexOf a l) = List.range l.length := by
  apply List.ext_getElem (by simp)
  intro i h1 h2
  simp only [List.getElem_map, List.getElem_range]
  exact indexOf_getElem_self h i (by simpa using h1)

theorem sortByTrayIndex_perm (l : List LetterTile) : (sortByTrayIndex l).Perm l :=
  List.perm_insertionSort _ l

/-! ## Lemmas about the release block -/

theorem settleTile_id (t : LetterTile) : (settleTile t).id = t.id := by
  unfold settleTile; split <;> rfl

theorem settleTile_char (t : LetterTile) : (settleTile t).char = t.char := by
  unfold settleTile; split <;> rfl

theorem settleTile_isDragging (t : LetterTile) : (settleTile t).isDragging = t.isDragging := by
  unfold settleTile; split <;> rfl

theorem settleTile_inTray (t : LetterTile) : (settleTile t).inTray = t.inTray := by
  unfold settleTile; split <;> rfl

theorem settleTile_trayIndex (t : LetterTile) : (settleTile t).trayIndex = t.trayIndex := by
  unfold settleTile; split <;> rfl

theorem releaseAssign_id (sx : ℚ) (aid : TileId) (order : List TileId) (t : LetterTile) :
    (releaseAssign sx aid order t).id = t.id := by
  unfold releaseAssign; split <;> rfl

theorem releaseAssign_char (sx : ℚ) (aid : TileId) (order : List TileId) (t : LetterTile) :
    (releaseAssign sx aid order t).char = t.char := by
  unfold releaseAssign; split <;> rfl

theorem releaseAssign_of_not_mem {order : List TileId} {t : LetterTile}
    (sx : ℚ) (aid : TileId) (h : t.id ∉ order) : releaseAssign sx aid order t = t := by
  unfold releaseAssign; rw [if_neg h]

theorem releaseAssign_inTray_of_mem {order : List TileId} {t : LetterTile}
    (sx : ℚ) (aid : TileId) (h : t.id ∈ order) :
    (releaseAssign sx aid order t).inTray = true := by
  unfold releaseAssign; rw [if_pos h]

theorem releaseAssign_trayIndex_of_mem {order : List TileId} {t : LetterTile}
    (sx : ℚ) (aid : TileId) (h : t.id ∈ order) :
    (releaseAssign sx aid order t).trayIndex = some (List.indexOf t.id order) := by
  unfold releaseAssign; rw [if_pos h]

theorem releaseAssign_isDragging_of_mem {order : List TileId} {t : LetterTile}
    (sx : ℚ) (aid : TileId) (h : t.id ∈ order) :
    (releaseAssign sx aid order t).isDragging =
      (if t.id = aid then false else t.isDragging) := by
  unfold releaseAssign; rw [if_pos h]

theorem releaseTile_of_find?_none {aid : TileId} {tiles : List LetterTile} (width : ℚ)
    (hf : tiles.find? (fun t => decide (t.id = aid)) = none) :
    releaseTile width aid tiles = (tiles, []) := by
  unfold releaseTile; rw [hf]

theorem releaseTile_inside {aid : TileId} {tiles : List LetterTile} {tile : LetterTile}
    (width : ℚ) (hf : tiles.find? (fun t => decide (t.id = aid)) = some tile)
    (hband : |tile.y - TRAY_Y| < 100) :
    releaseTile width aid tiles =
      (tiles.map (releaseAssign (releaseStartX width aid tiles) aid
         (releaseOrder aid tiles)),
       if tile.inTray then [] else [Sound.click]) := by
  unfold releaseTile; rw [hf]; simp only [if_pos hband]

theorem releaseTile_outside {aid : TileId} {tiles : List LetterTile} {tile : LetterTile}
    (width : ℚ) (hf : tiles.find? (fun t => decide (t.id = aid)) = some tile)
    (hband : ¬ |tile.y - TRAY_Y| < 100) :
    releaseTile width aid tiles =
      (updateFirst (fun t => decide (t.id = aid))
        (fun t => { t with isDragging := false, inTray := false, trayIndex := none })
        tiles, []) := by
  unfold releaseTile; rw [hf]; simp only [if_neg hband]

theorem mem_trayOthers_iff {aid : TileId} {tiles : List LetterTile} {t : LetterTile} :
    t ∈ trayOthers aid tiles ↔ t ∈ tiles ∧ t.inTray = true ∧ t.id ≠ aid := by
  unfold trayOthers
  rw [(sortByTrayIndex_perm _).mem_iff, List.mem_filter]
  simp [and_assoc]

theorem trayOthers_ids_nodup {aid : TileId} {tiles : List LetterTile}
    (hn : (tiles.map (·.id)).Nodup) : ((trayOthers aid tiles).map (·.id)).Nodup := by
  unfold trayOthers sortByTrayIndex
  have hperm := (List.perm_insertionSort
    (fun a b => a.trayIndex.getD 0 ≤ b.trayIndex.getD 0)
    (tiles.filter (fun t => t.inTray && decide (t.id ≠ aid)))).map (·.id)
  have hsub : ((tiles.filter (fun t => t.inTray && decide (t.id ≠ aid))).map
      (·.id)).Sublist (tiles.map (·.id)) := (List.filter_sublist _).map _
  exact hperm.symm.nodup (hsub.nodup hn)

theorem aid_not_mem_trayOthers_ids {aid : TileId} {tiles : List LetterTile} :
    aid ∉ (trayOthers aid tiles).map (·.id) := by
  intro hmem
  obtain ⟨t, ht, hid⟩ := List.mem_map.mp hmem
  exact (mem_trayOthers_iff.mp ht).2.2 hid

theorem releaseOrder_nodup {aid : TileId} {tiles : List LetterTile}
    (hn : (tiles.map (·.id)).Nodup) : (releaseOrder aid tiles).Nodup := by
  unfold releaseOrder
  exact (trayOthers_ids_nodup hn).append (List.nodup_singleton aid)
    (List.disjoint_singleton.mpr aid_not_mem_trayOthers_ids)

theorem subset_releaseOrder {aid : TileId} {tiles : List LetterTile} {tile : LetterTile}
    (hf : tiles.find? (fun t => decide (t.id = aid)) = some tile) :
    ∀ x ∈ releaseOrder aid tiles, x ∈ tiles.map (·.id) := by
  intro x hx
  unfold releaseOrder at hx
  rcases List.mem_append.mp hx with hx | hx
  · obtain ⟨t, ht, rfl⟩ := List.mem_map.mp hx
    exact List.mem_map_of_mem _ (mem_trayOthers_iff.mp ht).1
  · have hxa : x = aid := by simpa using hx
    have htile := List.mem_of_find?_eq_some hf
    have hid : tile.id = aid := by simpa using List.find?_some hf
    rw [hxa, ← hid]
    exact List.mem_map_of_mem _ htile

theorem aid_mem_releaseOrder (aid : TileId) (tiles : List LetterTile) :
    aid ∈ releaseOrder aid tiles := by
  unfold releaseOrder
  exact List.mem_append.mpr (Or.inr (by simp))

theorem inTray_id_mem_releaseOrder {aid : TileId} {tiles : List LetterTile} {t : LetterTile}
    (ht : t ∈ tiles) (hin : t.inTray = true) : t.id ∈ releaseOrder aid tiles := by
  by_cases hid : t.id = aid
  · rw [hid]; exact aid_mem_releaseOrder aid tiles
  · unfold releaseOrder
    exact List.mem_append.mpr
      (Or.inl (List.mem_map_of_mem _ (mem_trayOthers_iff.mpr ⟨ht, hin, hid⟩)))

theorem indexOf_append_of_not_mem {α : Type _} [BEq α] [LawfulBEq α] {x : α} :
    ∀ {l₁ : List α} (l₂ : List α), x ∉ l₁ →
      List.indexOf x (l₁ ++ l₂) = l₁.length + List.indexOf x l₂ := by
  intro l₁
  induction l₁ with
  | nil => intro l₂ _; simp
  | cons a l₁ ih =>
    intro l₂ hx
    have hax : (a == x) = false := by
      simp only [beq_eq_false_iff_ne]
      intro h
      exact hx (by simp [h])
    rw [List.cons_append, List.indexOf_cons, hax]
    rw [ih l₂ (fun h => hx (List.mem_cons_of_mem a h))]
    simp only [cond_false, List.length_cons]
    omega

theorem indexOf_aid_releaseOrder (aid : TileId) (tiles : List LetterTile) :
    List.indexOf aid (releaseOrder aid tiles) = (trayOthers aid tiles).length := by
  unfold releaseOrder
  rw [indexOf_append_of_not_mem [aid] aid_not_mem_trayOthers_ids]
  simp [List.indexOf_cons]

theorem release_inside_filter {aid : TileId} {tiles : List LetterTile} (sx : ℚ) :
    (tiles.map (releaseAssign sx aid (releaseOrder aid tiles))).filter (·.inTray) =
      (tiles.filter (fun t => decide (t.id ∈ releaseOrder aid tiles))).map
        (releaseAssign sx aid (releaseOrder aid tiles)) := by
  rw [List.filter_map]
  congr 1
  apply List.filter_congr
  intro t ht
  by_cases hmem : t.id ∈ releaseOrder aid tiles
  · simp [Function.comp, releaseAssign_inTray_of_mem sx aid hmem, hmem]
  · rw [show ((·.inTray) ∘ releaseAssign sx aid (releaseOrder aid tiles)) t =
        t.inTray from by rw [Function.comp, releaseAssign_of_not_mem sx aid hmem]]
    have hnt : t.inTray = false := by
      by_contra hc
      exact hmem (inTray_id_mem_releaseOrder ht (by simpa using hc))
    simp [hnt, hmem]

theorem filter_mem_order_ids_perm {aid : TileId} {tiles : List LetterTile} {tile : LetterTile}
    (hn : (tiles.map (·.id)).Nodup)
    (hf : tiles.find? (fun t => decide (t.id = aid)) = some tile) :
    ((tiles.filter (fun t => decide (t.id ∈ releaseOrder aid tiles))).map (·.id)).Perm
      (releaseOrder aid tiles) := by
  apply (List.perm_ext_iff_of_nodup (((List.filter_sublist _).map _).nodup hn)
    (releaseOrder_nodup hn)).mpr
  intro x
  constructor
  · intro hx
    obtain ⟨t, ht, rfl⟩ := List.mem_map.mp hx
    have := (List.mem_filter.mp ht).2
    simpa using this
  · intro hx
    obtain ⟨t, ht, rfl⟩ := List.mem_map.mp (subset_releaseOrder hf x hx)
    exact List.mem_map_of_mem _ (List.mem_filter.mpr ⟨ht, by simpa using hx⟩)

theorem release_inside_tray_perm {aid : TileId} {tiles : List LetterTile} {tile : LetterTile}
    (width : ℚ) (hn : (tiles.map (·.id)).Nodup)
    (hf : tiles.find? (fun t => decide (t.id = aid)) = some tile)
    (hband : |tile.y - TRAY_Y| < 100) :
    (((releaseTile width aid tiles).1.filter (·.inTray)).map (·.trayIndex)).Perm
      ((List.range (releaseOrder aid tiles).length).map some) := by
  rw [show (releaseTile width aid tiles).1 =
      tiles.map (releaseAssign (releaseStartX width aid tiles) aid (releaseOrder aid tiles))
    from by rw [releaseTile_inside width hf hband]]
  rw [release_inside_filter _, List.map_map]
  rw [List.map_congr_left (fun t ht =>
    show ((·.trayIndex) ∘ releaseAssign _ aid (releaseOrder aid tiles)) t =
        some (List.indexOf t.id (releaseOrder aid tiles)) from by
      rw [Function.comp,
        releaseAssign_trayIndex_of_mem _ aid (by simpa using (List.mem_filter.mp ht).2)])]
  rw [show (tiles.filter (fun t => decide (t.id ∈ releaseOrder aid tiles))).map
      (fun t => some (List.indexOf t.id (releaseOrder aid tiles))) =
      ((tiles.filter (fun t => decide (t.id ∈ releaseOrder aid tiles))).map (·.id)).map
        (fun x => some (List.indexOf x (releaseOrder aid tiles))) from by
    rw [List.map_map]; rfl]
  refine ((filter_mem_order_ids_perm hn hf).map _).trans ?_
  rw [show (releaseOrder aid tiles).map
      (fun x => some (List.indexOf x (releaseOrder aid tiles))) =
      ((releaseOrder aid tiles).map
        (fun x => List.indexOf x (releaseOrder aid tiles))).map some from by
    rw [List.map_map]; rfl]
  rw [map_indexOf_self (releaseOrder_nodup hn)]

/-! ## Frame-level projection lemmas -/

theorem updateTrayWord_tiles (s : GameState) : (updateTrayWord s).1.tiles = s.tiles := by
  simp only [updateTrayWord]; split <;> rfl

theorem updateTrayWord_activeTileId (s : GameState) :
    (updateTrayWord s).1.activeTileId = s.activeTileId := by
  simp only [updateTrayWord]; split <;> rfl

theorem updateTrayWord_currentWord (s : GameState) :
    (updateTrayWord s).1.currentWord = s.currentWord := by
  simp only [updateTrayWord]; split <;> rfl

theorem updateTrayWord_pinchFrames (s : GameState) :
    (updateTrayWord s).1.pinchFrames = s.pinchFrames := by
  simp only [updateTrayWord]; split <;> rfl

theorem updateTrayWord_pinchConfirmed (s : GameState) :
    (updateTrayWord s).1.pinchConfirmed = s.pinchConfirmed := by
  simp only [updateTrayWord]; split <;> rfl

theorem updateTrayWord_smoothHandPos (s : GameState) :
    (updateTrayWord s).1.smoothHandPos = s.smoothHandPos := by
  simp only [updateTrayWord]; split <;> rfl

theorem stepFrame_tiles (inp : FrameInput) (s : GameState) :
    (stepFrame inp s).1.tiles = settle (dragStepOf inp s).tiles := by
  unfold stepFrame
  by_cases h : (dragStepOf inp s).released <;>
    simp [h, updateTrayWord_tiles]

theorem stepFrame_activeTileId (inp : FrameInput) (s : GameState) :
    (stepFrame inp s).1.activeTileId = (dragStepOf inp s).active := by
  unfold stepFrame
  by_cases h : (dragStepOf inp s).released <;>
    simp [h, updateTrayWord_activeTileId]

theorem stepFrame_currentWord (inp : FrameInput) (s : GameState) :
    (stepFrame inp s).1.currentWord = s.currentWord := by
  unfold stepFrame
  by_cases h : (dragStepOf inp s).released <;>
    simp [h, updateTrayWord_currentWord]

theorem stepFrame_pinchFrames (inp : FrameInput) (s : GameState) :
    (stepFrame inp s).1.pinchFrames = pinchFrames1 inp s := by
  unfold stepFrame
  by_cases h : (dragStepOf inp s).released <;>
    simp [h, updateTrayWord_pinchFrames]

theorem stepFrame_pinchConfirmed (inp : FrameInput) (s : GameState) :
    (stepFrame inp s).1.pinchConfirmed = pinchConfirmed1 inp s := by
  unfold stepFrame
  by_cases h : (dragStepOf inp s).released <;>
    simp [h, updateTrayWord_pinchConfirmed]

theorem stepFrame_smoothHandPos (inp : FrameInput) (s : GameState) :
    (stepFrame inp s).1.smoothHandPos = (handProcess inp s).smooth := by
  unfold stepFrame
  by_cases h : (dragStepOf inp s).released <;>
    simp [h, updateTrayWord_smoothHandPos]

theorem simple_stepFrame_tiles (inp : FrameInput) (s : GameState) :
    (Simple.stepFrame inp s).1.tiles = settle (Simple.dragStepOf inp s).tiles := by
  unfold Simple.stepFrame
  by_cases h : (Simple.dragStepOf inp s).released <;>
    simp [h, updateTrayWord_tiles]

theorem simple_stepFrame_activeTileId (inp : FrameInput) (s : GameState) :
    (Simple.stepFrame inp s).1.activeTileId = (Simple.dragStepOf inp s).active := by
  unfold Simple.stepFrame
  by_cases h : (Simple.dragStepOf inp s).released <;>
    simp [h, updateTrayWord_activeTileId]

theorem simple_stepFrame_currentWord (inp : FrameInput) (s : GameState) :
    (Simple.stepFrame inp s).1.currentWord = s.currentWord := by
  unfold Simple.stepFrame
  by_cases h : (Simple.dragStepOf inp s).released <;>
    simp [h, updateTrayWord_currentWord]

/-! ## Preservation lemmas for the drag controller -/

theorem releaseTile_map_id (width : ℚ) (aid : TileId) (tiles : List LetterTile) :
    (releaseTile width aid tiles).1.map (·.id) = tiles.map (·.id) := by
  rcases hf : tiles.find? (fun t => decide (t.id = aid)) with _ | tile
  · rw [releaseTile_of_find?_none _ hf]
  · by_cases hband : |tile.y - TRAY_Y| < 100
    · rw [releaseTile_inside _ hf hband]
      simp only
      rw [List.map_map]
      exact List.map_congr_left (fun t _ => releaseAssign_id _ _ _ t)
    · rw [releaseTile_outside _ hf hband]
      dsimp only
      refine updateFirst_map_eq _ _ _ (fun a => ?_) _; rfl

theorem releaseTile_map_char (width : ℚ) (aid : TileId) (tiles : List LetterTile) :
    (releaseTile width aid tiles).1.map (·.char) = tiles.map (·.char) := by
  rcases hf : tiles.find? (fun t => decide (t.id = aid)) with _ | tile
  · rw [releaseTile_of_find?_none _ hf]
  · by_cases hband : |tile.y - TRAY_Y| < 100
    · rw [releaseTile_inside _ hf hband]
      simp only
      rw [List.map_map]
      exact List.map_congr_left (fun t _ => releaseAssign_char _ _ _ t)
    · rw [releaseTile_outside _ hf hband]
      dsimp only
      refine updateFirst_map_eq _ _ _ (fun a => ?_) _; rfl

theorem settle_map_id (tiles : List LetterTile) :
    (settle tiles).map (·.id) = tiles.map (·.id) := by
  unfold settle
  rw [List.map_map]
  exact List.map_congr_left (fun t _ => settleTile_id t)

theorem settle_map_char (tiles : List LetterTile) :
    (settle tiles).map (·.char) = tiles.map (·.char) := by
  unfold settle
  rw [List.map_map]
  exact List.map_congr_left (fun t _ => settleTile_char t)

theorem dragStep_map_id (width : ℚ) (handPos : Option (ℚ × ℚ)) (isPinching : Bool)
    (s : GameState) :
    (dragStep width handPos isPinching s).tiles.map (·.id) = s.tiles.map (·.id) := by
  unfold dragStep
  split
  · split
    · split
      · dsimp only
        refine updateFirst_map_eq _ _ _ (fun a => ?_) _; rfl
      · rfl
    · dsimp only
      refine updateFirst_map_eq _ _ _ (fun a => ?_) _; rfl
    · rfl
  · split
    · dsimp only
      exact releaseTile_map_id _ _ _
    · rfl

theorem dragStep_map_char (width : ℚ) (handPos : Option (ℚ × ℚ)) (isPinching : Bool)
    (s : GameState) :
    (dragStep width handPos isPinching s).tiles.map (·.char) = s.tiles.map (·.char) := by
  unfold dragStep
  split
  · split
    · split
      · dsimp only
        refine updateFirst_map_eq _ _ _ (fun a => ?_) _; rfl
      · rfl
    · dsimp only
      refine updateFirst_map_eq _ _ _ (fun a => ?_) _; rfl
    · rfl
  · split
    · dsimp only
      exact releaseTile_map_char _ _ _
    · rfl

theorem ids_ne_of_decomp {l₁ l₂ : List LetterTile} {a : LetterTile}
    (hn : (((l₁ ++ a :: l₂)).map (·.id)).Nodup) : ∀ x ∈ l₂, x.id ≠ a.id := by
  intro x hx heq
  rw [List.map_append, List.map_cons] at hn
  have h2 := (List.nodup_append.mp hn).2.1
  exact (List.nodup_cons.mp h2).1 (heq ▸ List.mem_map_of_mem _ hx)

theorem releaseTile_not_dragging {aid : TileId} {tiles : List LetterTile} (width : ℚ)
    (hn : (tiles.map (·.id)).Nodup)
    (hd : ∀ t ∈ tiles, t.isDragging = true → t.id = aid) :
    ∀ u ∈ (releaseTile width aid tiles).1, u.isDragging = false := by
  intro u hu
  rcases hf : tiles.find? (fun t => decide (t.id = aid)) with _ | tile
  · rw [releaseTile_of_find?_none _ hf] at hu
    have hnone := List.find?_eq_none.mp hf u hu
    rcases hdrag : u.isDragging with _ | _
    · rfl
    · exact absurd (hd u hu hdrag) (by simpa using hnone)
  · by_cases hband : |tile.y - TRAY_Y| < 100
    · rw [releaseTile_inside _ hf hband] at hu
      dsimp only at hu
      obtain ⟨t, ht, rfl⟩ := List.mem_map.mp hu
      by_cases hmem : t.id ∈ releaseOrder aid tiles
      · rw [releaseAssign_isDragging_of_mem _ aid hmem]
        by_cases hid : t.id = aid
        · rw [if_pos hid]
        · rw [if_neg hid]
          rcases hdrag : t.isDragging with _ | _
          · rfl
          · exact absurd (hd t ht hdrag) hid
      · rw [releaseAssign_of_not_mem _ aid hmem]
        rcases hdrag : t.isDragging with _ | _
        · rfl
        · exact absurd (hd t ht hdrag ▸ aid_mem_releaseOrder aid tiles) hmem
    · rw [releaseTile_outside _ hf hband] at hu
      dsimp only at hu
      obtain ⟨l₁, l₂, hdec, h₁, h₂⟩ :=
        updateFirst_decomp (fun t => decide (t.id = aid))
          (fun t : LetterTile =>
            { t with isDragging := false, inTray := false, trayIndex := none }) hf
      rw [h₂] at hu
      have hida : tile.id = aid := by simpa using List.find?_some hf
      rcases List.mem_append.mp hu with hu | hu
      · rcases hdrag : u.isDragging with _ | _
        · rfl
        · have : u.id ≠ aid := by simpa using h₁ u hu
          exact absurd (hd u (hdec ▸ List.mem_append.mpr (Or.inl hu)) hdrag) this
      · rcases List.mem_cons.mp hu with rfl | hu
        · rfl
        · rcases hdrag : u.isDragging with _ | _
          · rfl
          · have hne : u.id ≠ tile.id := ids_ne_of_decomp (hdec ▸ hn) u hu
            exact absurd (hd u (hdec ▸ List.mem_append.mpr
              (Or.inr (List.mem_cons_of_mem _ hu))) hdrag) (hida ▸ hne)

theorem release_outside_filter {aid : TileId} {tiles : List LetterTile} {tile : LetterTile}
    (width : ℚ) (hn : (tiles.map (·.id)).Nodup)
    (hf : tiles.find? (fun t => decide (t.id = aid)) = some tile)
    (hband : ¬ |tile.y - TRAY_Y| < 100) :
    (releaseTile width aid tiles).1.filter (·.inTray) =
      tiles.filter (fun t => t.inTray && decide (t.id ≠ aid)) := by
  rw [releaseTile_outside _ hf hband]
  dsimp only
  obtain ⟨l₁, l₂, hdec, h₁, h₂⟩ :=
    updateFirst_decomp (fun t => decide (t.id = aid))
      (fun t : LetterTile =>
        { t with isDragging := false, inTray := false, trayIndex := none }) hf
  have hida : tile.id = aid := by simpa using List.find?_some hf
  rw [h₂]
  conv_rhs => rw [hdec]
  have e₁ : l₁.filter (·.inTray) = l₁.filter (fun t => t.inTray && decide (t.id ≠ aid)) := by
    apply List.filter_congr
    intro x hx
    have hxne : x.id ≠ aid := by simpa using h₁ x hx
    simp [hxne]
  have e₂ : l₂.filter (·.inTray) = l₂.filter (fun t => t.inTray && decide (t.id ≠ aid)) := by
    apply List.filter_congr
    intro x hx
    have hxne : x.id ≠ aid := hida ▸ ids_ne_of_decomp (hdec ▸ hn) x hx
    simp [hxne]
  rw [List.filter_append, List.filter_append, List.filter_cons, List.filter_cons]
  rw [if_neg (by simp : ¬ ((({ tile with isDragging := false, inTray := false, trayIndex := none } : LetterTile).inTray) = true))]
  rw [if_neg (by simp [hida] : ¬ ((tile.inTray && decide (tile.id ≠ aid)) = true))]
  rw [e₁, e₂]

theorem release_inside_released_tile {aid : TileId} {tiles : List LetterTile}
    {tile : LetterTile} (width : ℚ)
    (hf : tiles.find? (fun t => decide (t.id = aid)) = some tile)
    (hband : |tile.y - TRAY_Y| < 100) :
    ∀ u ∈ (releaseTile width aid tiles).1, u.id = aid →
      u.inTray = true ∧ u.trayIndex = some (trayOthers aid tiles).length ∧
      u.isDragging = false := by
  intro u hu hid
  rw [releaseTile_inside _ hf hband] at hu
  dsimp only at hu
  obtain ⟨t, _, rfl⟩ := List.mem_map.mp hu
  have htid : t.id = aid := by rw [← releaseAssign_id (releaseStartX width aid tiles) aid (releaseOrder aid tiles) t]; exact hid
  have hmem : t.id ∈ releaseOrder aid tiles := htid ▸ aid_mem_releaseOrder aid tiles
  refine ⟨releaseAssign_inTray_of_mem _ aid hmem, ?_, ?_⟩
  · rw [releaseAssign_trayIndex_of_mem _ aid hmem, htid, indexOf_aid_releaseOrder]
  · rw [releaseAssign_isDragging_of_mem _ aid hmem, if_pos htid]

theorem release_outside_released_tile {aid : TileId} {tiles : List LetterTile}
    {tile : LetterTile} (width : ℚ) (hn : (tiles.map (·.id)).Nodup)
    (hf : tiles.find? (fun t => decide (t.id = aid)) = some tile)
    (hband : ¬ |tile.y - TRAY_Y| < 100) :
    ∀ u ∈ (releaseTile width aid tiles).1, u.id = aid →
      u.inTray = false ∧ u.trayIndex = none ∧ u.isDragging = false := by
  intro u hu hid
  rw [releaseTile_outside _ hf hband] at hu
  dsimp only at hu
  obtain ⟨l₁, l₂, hdec, h₁, h₂⟩ :=
    updateFirst_decomp (fun t => decide (t.id = aid))
      (fun t : LetterTile =>
        { t with isDragging := false, inTray := false, trayIndex := none }) hf
  have hida : tile.id = aid := by simpa using List.find?_some hf
  rw [h₂] at hu
  rcases List.mem_append.mp hu with hu | hu
  · exact absurd hid (by simpa using h₁ u hu)
  · rcases List.mem_cons.mp hu with rfl | hu
    · exact ⟨rfl, rfl, rfl⟩
    · exact absurd hid ((hida ▸ ids_ne_of_decomp (hdec ▸ hn) u hu : u.id ≠ aid))

theorem filter_inTray_length_of_mem_tray {aid : TileId} {tiles : List LetterTile}
    {tile : LetterTile} (hn : (tiles.map (·.id)).Nodup)
    (hf : tiles.find? (fun t => decide (t.id = aid)) = some tile)
    (hin : tile.inTray = true) :
    (tiles.filter (·.inTray)).length = (trayOthers aid tiles).length + 1 := by
  have hida : tile.id = aid := by simpa using List.find?_some hf
  have hlen : (trayOthers aid tiles).length =
      (tiles.filter (fun t => t.inTray && decide (t.id ≠ aid))).length := by
    unfold trayOthers sortByTrayIndex
    exact (List.perm_insertionSort _ _).length_eq
  rw [hlen]
  obtain ⟨l₁, l₂, hdec, h₁, _⟩ :=
    updateFirst_decomp (fun t => decide (t.id = aid)) (fun t : LetterTile => t) hf
  have e₁ : l₁.filter (·.inTray) = l₁.filter (fun t => t.inTray && decide (t.id ≠ aid)) := by
    apply List.filter_congr
    intro x hx
    have hxne : x.id ≠ aid := by simpa using h₁ x hx
    simp [hxne]
  have e₂ : l₂.filter (·.inTray) = l₂.filter (fun t => t.inTray && decide (t.id ≠ aid)) := by
    apply List.filter_congr
    intro x hx
    have hxne : x.id ≠ aid := hida ▸ ids_ne_of_decomp (hdec ▸ hn) x hx
    simp [hxne]
  rw [hdec]
  rw [List.filter_append, List.filter_append, List.filter_cons, List.filter_cons]
  rw [if_pos (by simpa using hin), if_neg (by simp [hida] :
    ¬ ((tile.inTray && decide (tile.id ≠ aid)) = true))]
  rw [e₁, e₂]
  simp [Nat.add_assoc, Nat.add_comm 1]

theorem dragStep_drag_inv {s : GameState} (width : ℚ) (handPos : Option (ℚ × ℚ))
    (isPinching : Bool) (hn : (s.tiles.map (·.id)).Nodup)
    (hd : ∀ t ∈ s.tiles, t.isDragging = true → s.activeTileId = some t.id) :
    ∀ t ∈ (dragStep width handPos isPinching s).tiles, t.isDragging = true →
      (dragStep width handPos isPinching s).active = some t.id := by
  have hrelease : ∀ (aid : TileId), s.activeTileId = some aid →
      ∀ t ∈ (releaseTile width aid s.tiles).1, t.isDragging = true → False := by
    intro aid hact t ht hdrag
    have hd2 : ∀ u ∈ s.tiles, u.isDragging = true → u.id = aid := by
      intro u hu hud
      have := hd u hu hud
      rw [hact] at this
      exact (Option.some.injEq _ _ ▸ this).symm
    have := releaseTile_not_dragging width hn hd2 t ht
    rw [hdrag] at this
    exact Bool.true_eq_false.mp this
  intro t ht hdrag
  unfold dragStep at ht ⊢
  rcases handPos with _ | hp
  · simp only [Option.isSome_none, Bool.false_and, Bool.false_eq_true, if_false] at ht ⊢
    rcases hact : s.activeTileId with _ | aid
    · rw [hact] at ht
      simp only at ht ⊢
      have := hd t ht hdrag
      rw [hact] at this
      exact absurd this (by simp)
    · rw [hact] at ht
      simp only at ht ⊢
      exact absurd (hrelease aid hact t ht hdrag) (by simp)
  · by_cases hcond : (isPinching && !s.isCorrect) = true
    · simp only [Option.isSome_some, Bool.true_and, hcond, if_true] at ht ⊢
      rcases hact : s.activeTileId with _ | aid
      · rw [hact] at ht
        simp only at ht ⊢
        rcases hfind : s.tiles.find? (hitTestAt hp) with _ | clicked
        · rw [hfind] at ht
          simp only at ht ⊢
          have := hd t ht hdrag
          rw [hact] at this
          exact absurd this (by simp)
        · rw [hfind] at ht
          simp only at ht ⊢
          obtain ⟨l₁, l₂, hdec, h₁, h₂⟩ :=
            updateFirst_decomp (hitTestAt hp)
              (fun u : LetterTile => { u with isDragging := true }) hfind
          rw [h₂] at ht
          rcases List.mem_append.mp ht with hmem | hmem
          · have := hd t (hdec ▸ List.mem_append.mpr (Or.inl hmem)) hdrag
            rw [hact] at this
            exact absurd this (by simp)
          · rcases List.mem_cons.mp hmem with rfl | hmem
            · rfl
            · have := hd t (hdec ▸ List.mem_append.mpr
                (Or.inr (List.mem_cons_of_mem _ hmem))) hdrag
              rw [hact] at this
              exact absurd this (by simp)
      · rw [hact] at ht
        simp only at ht ⊢
        rcases hfind : s.tiles.find? (fun u => decide (u.id = aid)) with _ | found
        · rw [updateFirst_eq_of_find?_none _ _ hfind] at ht
          exact hact ▸ hd t ht hdrag
        · obtain ⟨l₁, l₂, hdec, h₁, h₂⟩ :=
            updateFirst_decomp (fun u => decide (u.id = aid))
              (fun u : LetterTile => { u with x := hp.1, y := hp.2 }) hfind
          rw [h₂] at ht
          have hfid : found.id = aid := by simpa using List.find?_some hfind
          rcases List.mem_append.mp ht with hmem | hmem
          · exact hact ▸ hd t (hdec ▸ List.mem_append.mpr (Or.inl hmem)) hdrag
          · rcases List.mem_cons.mp hmem with rfl | hmem
            · have : found.isDragging = true := hdrag
              have h3 := hd found (hdec ▸ List.mem_append.mpr
                (Or.inr (List.mem_cons_self _ _))) this
              rw [hact] at h3
              simpa using h3
            · exact hact ▸ hd t (hdec ▸ List.mem_append.mpr
                (Or.inr (List.mem_cons_of_mem _ hmem))) hdrag
    · simp only [Option.isSome_some, Bool.true_and, hcond, if_false] at ht ⊢
      rcases hact : s.activeTileId with _ | aid
      · rw [hact] at ht
        simp only at ht ⊢
        have := hd t ht hdrag
        rw [hact] at this
        exact absurd this (by simp)
      · rw [hact] at ht
        simp only at ht ⊢
        exact absurd (hrelease aid hact t ht hdrag) (by simp)

/-! ## Pool construction lemmas and the drag invariant -/

theorem pool_ids_nodup_aux (w h : ℚ) (letters : List Char) (n : ℕ) :
    ((letters.enum.map (fun p => mkTile n w h p.1 p.2)).map (·.id)).Nodup := by
  apply List.Nodup.of_map Prod.snd
  have h1 : (((letters.enum.map (fun p => mkTile n w h p.1 p.2)).map (·.id)).map Prod.snd)
      = letters.enum.map Prod.fst := by
    rw [List.map_map, List.map_map]
    rfl
  rw [h1, List.enum_map_fst]
  exact List.nodup_range _

theorem pool_map_char_aux (w h : ℚ) (letters : List Char) (n : ℕ) :
    (letters.enum.map (fun p => mkTile n w h p.1 p.2)).map (·.char) = letters := by
  rw [List.map_map]
  have h1 : ((·.char) ∘ fun p : ℕ × Char => mkTile n w h p.1 p.2) = Prod.snd := rfl
  rw [h1, List.enum_map_snd]

theorem pool_not_dragging_aux (w h : ℚ) (letters : List Char) (n : ℕ) :
    ∀ t ∈ letters.enum.map (fun p => mkTile n w h p.1 p.2), t.isDragging = false := by
  intro t ht
  obtain ⟨p, _, rfl⟩ := List.mem_map.mp ht
  rfl

theorem initPool_ids_nodup (w h : ℚ) (word : String) (js : ℕ → ℕ) :
    ((initPool w h word js).map (·.id)).Nodup :=
  pool_ids_nodup_aux w h _ _

theorem initPool_not_dragging (w h : ℚ) (word : String) (js : ℕ → ℕ) :
    ∀ t ∈ initPool w h word js, t.isDragging = false :=
  pool_not_dragging_aux w h _ _

theorem simple_initPool_ids_nodup (w h : ℚ) (js : ℕ → ℕ) :
    ((Simple.initPool w h js).map (·.id)).Nodup :=
  pool_ids_nodup_aux w h _ _

theorem simple_initPool_not_dragging (w h : ℚ) (js : ℕ → ℕ) :
    ∀ t ∈ Simple.initPool w h js, t.isDragging = false :=
  pool_not_dragging_aux w h _ _

theorem simple_initPool_map_char (w h : ℚ) (js : ℕ → ℕ) :
    (Simple.initPool w h js).map (·.char) = shuffleArray js ALPHABET :=
  pool_map_char_aux w h _ _

theorem stepFrame_inv {s : GameState} (inp : FrameInput)
    (hn : (s.tiles.map (·.id)).Nodup)
    (hd : ∀ t ∈ s.tiles, t.isDragging = true → s.activeTileId = some t.id) :
    ((stepFrame inp s).1.tiles.map (·.id)).Nodup ∧
    (∀ t ∈ (stepFrame inp s).1.tiles, t.isDragging = true →
      (stepFrame inp s).1.activeTileId = some t.id) := by
  constructor
  · rw [stepFrame_tiles, settle_map_id]
    unfold dragStepOf
    rw [dragStep_map_id]
    exact hn
  · intro t ht hdrag
    rw [stepFrame_tiles] at ht
    rw [stepFrame_activeTileId]
    unfold dragStepOf at ht ⊢
    obtain ⟨u, hu, rfl⟩ := List.mem_map.mp ht
    have hu_drag : u.isDragging = true := by rw [← settleTile_isDragging u]; exact hdrag
    rw [settleTile_id]
    exact dragStep_drag_inv _ _ _ hn hd u hu hu_drag

theorem reach_inv {s : GameState} (h : Reach s) :
    (s.tiles.map (·.id)).Nodup ∧
    ∀ t ∈ s.tiles, t.isDragging = true → s.activeTileId = some t.id := by
  induction h with
  | init w h word js d =>
    refine ⟨initPool_ids_nodup w h word js, ?_⟩
    intro t ht hdrag
    rw [initPool_not_dragging w h word js t ht] at hdrag
    cases hdrag
  | frame inp _ ih => exact stepFrame_inv inp ih.1 ih.2
  | round w h word js _ ih =>
    refine ⟨initPool_ids_nodup w h word js, ?_⟩
    intro t ht hdrag
    rw [initPool_not_dragging w h word js t ht] at hdrag
    cases hdrag

theorem countP_dragging_le_one {s : GameState}
    (hn : (s.tiles.map (·.id)).Nodup)
    (hd : ∀ t ∈ s.tiles, t.isDragging = true → s.activeTileId = some t.id) :
    s.tiles.countP (·.isDragging) ≤ 1 := by
  rw [List.countP_eq_length_filter]
  rcases hF : s.tiles.filter (·.isDragging) with _ | ⟨x, rest⟩
  · simp [hF]
  · rcases hR : rest with _ | ⟨y, rest2⟩
    · simp [hF, hR]
    · exfalso
      rw [hR] at hF
      have hxmem : x ∈ s.tiles.filter (·.isDragging) := by rw [hF]; simp
      have hymem : y ∈ s.tiles.filter (·.isDragging) := by rw [hF]; simp
      have hxd := List.mem_filter.mp hxmem
      have hyd := List.mem_filter.mp hymem
      have hax := hd x hxd.1 (by simpa using hxd.2)
      have hay := hd y hyd.1 (by simpa using hyd.2)
      have hxy : x.id = y.id := by
        have := hax.symm.trans hay
        simpa using this
      have hnodup : ((s.tiles.filter (·.isDragging)).map (·.id)).Nodup :=
        ((List.filter_sublist _).map _).nodup hn
      rw [hF] at hnodup
      simp only [List.map_cons, List.nodup_cons] at hnodup
      exact hnodup.1 (by simp [hxy])

/-! ## Word evaluator lemmas and the simple variant's character invariant -/

theorem ALPHABET_nodup : ALPHABET.Nodup := by decide

theorem trayWordOf_toList (tiles : List LetterTile) :
    (trayWordOf tiles).toList = (trayTilesSorted tiles).map (·.char) := rfl

theorem trayWordOf_nodup {tiles : List LetterTile}
    (hchar : (tiles.map (·.char)).Nodup) : (trayWordOf tiles).toList.Nodup := by
  rw [trayWordOf_toList]
  have hperm : ((trayTilesSorted tiles).map (·.char)).Perm
      ((tiles.filter (·.inTray)).map (·.char)) :=
    (sortByTrayIndex_perm _).map _
  have hsub : ((tiles.filter (·.inTray)).map (·.char)).Sublist (tiles.map (·.char)) :=
    (List.filter_sublist _).map _
  exact hperm.symm.nodup (hsub.nodup hchar)

theorem trayWordOf_ne_of_dup {tiles : List LetterTile} {word : String}
    (hchar : (tiles.map (·.char)).Nodup) (hdup : ¬ word.toList.Nodup) :
    trayWordOf tiles ≠ word := by
  intro h
  exact hdup (h ▸ trayWordOf_nodup hchar)

theorem updateTrayWord_isCorrect_false {s : GameState}
    (hchar : (s.tiles.map (·.char)).Nodup) (hdup : ¬ s.currentWord.toList.Nodup) :
    (updateTrayWord s).1.isCorrect = false := by
  simp only [updateTrayWord]
  rw [if_neg]
  intro hcon
  exact trayWordOf_ne_of_dup hchar hdup hcon.1

theorem simple_stepFrame_isCorrect_false {s : GameState} (inp : FrameInput)
    (hchar : (s.tiles.map (·.char)).Nodup) (hdup : ¬ s.currentWord.toList.Nodup)
    (hcor : s.isCorrect = false) : (Simple.stepFrame inp s).1.isCorrect = false := by
  unfold Simple.stepFrame
  by_cases h : (Simple.dragStepOf inp s).released
  · simp only [h, if_true]
    have hchar2 : (((Simple.dragStepOf inp s).tiles).map (·.char)).Nodup := by
      unfold Simple.dragStepOf
      rw [dragStep_map_char]
      exact hchar
    exact updateTrayWord_isCorrect_false hchar2 hdup
  · simp only [h, if_false]
    exact hcor

theorem scramblePool_map_char (w h : ℚ) (js : ℕ → ℕ) (s : GameState) :
    ((Simple.scramblePool w h js s).tiles.map (·.char)).Perm
      (s.tiles.map (·.char)) := by
  unfold Simple.scramblePool
  simp only [List.map_append]
  have h1 : ((shuffleArray js (s.tiles.filter (fun t => !t.inTray))).enum.map
      (fun p => if p.1 < 26 then
        { p.2 with targetX := (poolPos 26 w h p.1).1, targetY := (poolPos 26 w h p.1).2 }
      else p.2)).map (·.char) =
      (shuffleArray js (s.tiles.filter (fun t => !t.inTray))).map (·.char) := by
    rw [List.map_map]
    have h2 : ∀ p ∈ (shuffleArray js (s.tiles.filter (fun t => !t.inTray))).enum,
        (fun q : ℕ × LetterTile => ((if q.1 < 26 then
            { q.2 with targetX := (poolPos 26 w h q.1).1, targetY := (poolPos 26 w h q.1).2 }
          else q.2) : LetterTile).char) p
        = (fun q : ℕ × LetterTile => q.2.char) p := by
      intro p _
      dsimp only
      split <;> rfl
    refine Eq.trans (List.map_congr_left h2) ?_
    rw [show (fun q : ℕ × LetterTile => q.2.char) = ((·.char) ∘ Prod.snd) from rfl,
      ← List.map_map, List.enum_map_snd]
  rw [h1]
  have h4 : ((shuffleArray js (s.tiles.filter (fun t => !t.inTray))).map (·.char)).Perm
      ((s.tiles.filter (fun t => !t.inTray)).map (·.char)) :=
    (shuffleArray_perm _ _).map _
  refine (h4.append_right _).trans ?_
  have h5 : (s.tiles.filter (fun t => t.inTray)).map (·.char) =
      (s.tiles.filter (fun t => !(!t.inTray))).map (·.char) := by
    congr 1
    apply List.filter_congr
    intro x _
    simp
  rw [h5, ← List.map_append]
  exact (List.filter_append_perm _ _).map _

theorem simple_reach_inv {s : GameState} (hr : Simple.Reach s) :
    ((s.tiles.map (·.char)).Perm ALPHABET) ∧
    (¬ s.currentWord.toList.Nodup → s.isCorrect = false) := by
  induction hr with
  | init w h word js d =>
    constructor
    · have ht : (Simple.initState w h word js d).tiles = Simple.initPool w h js := by
        simp only [Simple.initState]
      rw [ht, simple_initPool_map_char]
      exact shuffleArray_perm js ALPHABET
    · intro _
      simp only [Simple.initState]
  | frame inp hr ih =>
    constructor
    · rw [simple_stepFrame_tiles, settle_map_char]
      unfold Simple.dragStepOf
      rw [dragStep_map_char]
      exact ih.1
    · intro hdup
      rw [simple_stepFrame_currentWord] at hdup
      exact simple_stepFrame_isCorrect_false inp
        (ih.1.symm.nodup ALPHABET_nodup) hdup (ih.2 hdup)
  | @scramble s2 w h js hr hcor ih =>
    constructor
    · exact (scramblePool_map_char w h js _).trans ih.1
    · intro hdup
      have h1 : (Simple.scramblePool w h js s2).isCorrect = s2.isCorrect := by
        simp only [Simple.scramblePool]
      have h2 : (Simple.scramblePool w h js s2).currentWord = s2.currentWord := by
        simp only [Simple.scramblePool]
      rw [h1]
      rw [h2] at hdup
      exact ih.2 hdup
  | @round s2 w h word js hr ih =>
    constructor
    · have ht : (Simple.nextWordUpdate w h word js s2).tiles = Simple.initPool w h js := by
        simp only [Simple.nextWordUpdate]
      rw [ht, simple_initPool_map_char]
      exact shuffleArray_perm js ALPHABET
    · intro _
      simp only [Simple.nextWordUpdate]

theorem updateTrayWord_isCorrect_iff (s : GameState) :
    (updateTrayWord s).1.isCorrect = true ↔
      (trayWordOf s.tiles = s.currentWord ∧ 0 < (trayWordOf s.tiles).length) := by
  simp only [updateTrayWord]
  split
  case isTrue hcond => simpa using hcond
  case isFalse hcond => simpa using hcond

theorem updateTrayWord_score_on_solve {s : GameState}
    (h1 : trayWordOf s.tiles = s.currentWord)
    (h2 : 0 < (trayWordOf s.tiles).length) :
    (updateTrayWord s).1.score = s.score +
      ⌊((trayWordOf s.tiles).length : ℚ) * 10 * (DIFFICULTY_SETTINGS s.difficulty).multiplier⌋ +
      ⌊(s.timeLeft : ℚ) * (DIFFICULTY_SETTINGS s.difficulty).multiplier⌋ := by
  simp only [updateTrayWord]
  rw [if_pos ⟨h1, h2⟩]

/-! ## Hand-processing characterizations -/

theorem handProcess_none {inp : FrameInput} (s : GameState) (hh : inp.hand = none) :
    handProcess inp s =
      { pos := none, raw := false, smooth := s.smoothHandPos, pf := 0, pc := false } := by
  unfold handProcess
  rw [hh]

theorem handProcess_some {inp : FrameInput} (s : GameState) {hnd : HandInput}
    (hh : inp.hand = some hnd) :
    handProcess inp s =
      { pos := some (s.smoothHandPos.1 + ((rawCursor inp.width inp.height hnd).1 -
          s.smoothHandPos.1) * HAND_SMOOTH,
          s.smoothHandPos.2 + ((rawCursor inp.width inp.height hnd).2 -
          s.smoothHandPos.2) * HAND_SMOOTH),
        raw := rawPinchingOf s.activeTileId.isSome hnd,
        smooth := (s.smoothHandPos.1 + ((rawCursor inp.width inp.height hnd).1 -
          s.smoothHandPos.1) * HAND_SMOOTH,
          s.smoothHandPos.2 + ((rawCursor inp.width inp.height hnd).2 -
          s.smoothHandPos.2) * HAND_SMOOTH),
        pf := s.pinchFrames, pc := s.pinchConfirmed } := by
  unfold handProcess
  rw [hh]

theorem pinchFrames1_none {inp : FrameInput} (s : GameState) (hh : inp.hand = none) :
    pinchFrames1 inp s = 0 := by
  unfold pinchFrames1
  rw [handProcess_none s hh]
  rfl

theorem pinchConfirmed1_none {inp : FrameInput} (s : GameState) (hh : inp.hand = none) :
    pinchConfirmed1 inp s = false := by
  unfold pinchConfirmed1
  rw [handProcess_none s hh]
  unfold pinchConfirmedNext
  cases h : s.activeTileId.isSome <;> simp

theorem dragStepOf_release_of_no_hand {inp : FrameInput} {s : GameState} {aid : TileId}
    (hh : inp.hand = none) (ha : s.activeTileId = some aid) :
    dragStepOf inp s =
      { tiles := (releaseTile inp.width aid s.tiles).1, active := none,
        sounds := (releaseTile inp.width aid s.tiles).2, released := true } := by
  unfold dragStepOf
  rw [handProcess_none s hh]
  unfold dragStep
  simp only [effectivePinch, Bool.false_and, Option.isSome_none, Bool.false_eq_true,
    if_false, ha]

theorem pinchFrames1_some {inp : FrameInput} (s : GameState) {hnd : HandInput}
    (hh : inp.hand = some hnd) :
    pinchFrames1 inp s =
      pinchFramesNext (rawPinchingOf s.activeTileId.isSome hnd) s.pinchFrames := by
  unfold pinchFrames1
  rw [handProcess_some s hh]

theorem pinchConfirmed1_some {inp : FrameInput} (s : GameState) {hnd : HandInput}
    (hh : inp.hand = some hnd) :
    pinchConfirmed1 inp s =
      pinchConfirmedNext (rawPinchingOf s.activeTileId.isSome hnd) s.activeTileId.isSome
        (pinchFrames1 inp s) s.pinchConfirmed := by
  unfold pinchConfirmed1 pinchFrames1
  rw [handProcess_some s hh]

theorem pinchConfirmedNext_true_iff (raw active : Bool) (pfNew : ℕ) (pc : Bool) :
    pinchConfirmedNext raw active pfNew pc = true ↔
      ((raw = true ∧ GRAB_CONFIRM_FRAMES ≤ pfNew) ∨
       (pc = true ∧ (raw = true ∨ active = true))) := by
  unfold pinchConfirmedNext
  cases raw
  · cases active <;> cases pc <;> simp
  · by_cases h2 : GRAB_CONFIRM_FRAMES ≤ pfNew <;> cases pc <;> simp [h2]

/-! ## Claim-level theorems -/

set_option maxHeartbeats 1000000

/-- C3 (counterexample): the word evaluator is NOT case-insensitive.  With the
tray spelling "cat" and the target "CAT", the claim says the round is solved,
but `updateTrayWord` (JavaScript `===`) leaves it unsolved. -/
theorem claim3_counterexample :
    trayWordOf lowercaseState.tiles = "cat" ∧
    lowercaseState.currentWord = "CAT" ∧
    (updateTrayWord lowercaseState).1.isCorrect = false := by
  decide

/-- C3 (amended): the evaluator marks the round solved iff the tray word is
non-empty and equals the target exactly, case-SENSITIVELY (tiles and targets
are both upper-case in play, where this coincides with case-insensitive
matching): "CAT" vs "CAT" solves, "cat" vs "CAT" does not, "CA" vs "CAT" does
not, and an empty tray never matches. -/
theorem claim3_amended (s : GameState) :
    (updateTrayWord s).1.isCorrect = true ↔
      (trayWordOf s.tiles = s.currentWord ∧ 0 < (trayWordOf s.tiles).length) :=
  updateTrayWord_isCorrect_iff s

/-- C4 (code bug): the hand-lost branch is documented ("reset smoothing so it
snaps when hand reappears") and specified to snap the smoothed cursor to the
next raw sample, but the code resets only the pinch bookkeeping and never
touches `smoothHandPos`.  From a smoothed cursor at (0,0), after a lost-hand
frame, the reacquisition frame with raw sample (100,100) yields the ordinary
EMA blend (45,45) = 0 + (100-0)*0.45, not the snapped (100,100). -/
theorem claim4_bug :
    rawCursor 1000 1000 handSample = (100, 100) ∧
    (stepFrame frameNoHand emptyState).1.smoothHandPos = (0, 0) ∧
    (stepFrame reacquireFrame ((stepFrame frameNoHand emptyState).1)).1.smoothHandPos =
      (45, 45) ∧
    ((45 : ℚ), (45 : ℚ)) ≠ ((100 : ℚ), (100 : ℚ)) := by
  decide

/-- C7: on a solve the score increases by exactly
`floor(word length * 10 * multiplier) + floor(timeLeft * multiplier)`, with
multipliers 1, 1.5, 2 for EASY, MEDIUM, HARD. -/
theorem claim7_score_delta (s : GameState)
    (h1 : trayWordOf s.tiles = s.currentWord)
    (h2 : 0 < (trayWordOf s.tiles).length) :
    ((DIFFICULTY_SETTINGS Difficulty.EASY).multiplier = 1 ∧
     (DIFFICULTY_SETTINGS Difficulty.MEDIUM).multiplier = 1.5 ∧
     (DIFFICULTY_SETTINGS Difficulty.HARD).multiplier = 2) ∧
    (updateTrayWord s).1.score = s.score +
      ⌊((trayWordOf s.tiles).length : ℚ) * 10 *
        (DIFFICULTY_SETTINGS s.difficulty).multiplier⌋ +
      ⌊(s.timeLeft : ℚ) * (DIFFICULTY_SETTINGS s.difficulty).multiplier⌋ :=
  ⟨⟨rfl, rfl, rfl⟩, updateTrayWord_score_on_solve h1 h2⟩

/-- C7 witness: a 3-letter word at MEDIUM with 20 seconds left adds
`floor(45) + floor(30) = 75` points. -/
theorem claim7_witness :
    trayWordOf dogState.tiles = dogState.currentWord ∧
    0 < (trayWordOf dogState.tiles).length ∧
    (updateTrayWord dogState).1.score = 75 := by
  refine ⟨by decide, by decide, ?_⟩
  have h := (claim7_score_delta dogState (by decide) (by decide)).2
  rw [h]
  decide

/-- C8: `getSpellingFeedback` is total (it returns a structured `AiResponse`
for every input by construction) and every failure is downgraded: an API
failure yields `isValid = false` with the fixed fallback "Coach is resting.",
a JSON-parse failure yields `isValid = false` with the fixed fallback
"Keep trying!", and in both cases the error text lands only in the `debug`
record (`debug.error`); on success `debug.error` stays empty. -/
theorem claim8_feedback_total (imageBase64 tray : String) (avail : List String)
    (ts : String) (lat : ℕ) (api : Except String (Option String))
    (parseJson : String → Except String SpellingFeedback) :
    (∀ e, api = .error e →
      (getSpellingFeedback imageBase64 tray avail ts lat api parseJson).feedback =
        { word := tray, isValid := false, suggestion := some "Coach is resting." } ∧
      ((getSpellingFeedback imageBase64 tray avail ts lat api parseJson).debug.error).isSome) ∧
    (∀ payload msg, api = .ok payload →
      parseJson (match payload with
        | some t => if t = "" then "\x7b\x7d" else t
        | none => "\x7b\x7d") = .error msg →
      (getSpellingFeedback imageBase64 tray avail ts lat api parseJson).feedback =
        { word := tray, isValid := false, suggestion := some "Keep trying!" } ∧
      (getSpellingFeedback imageBase64 tray avail ts lat api parseJson).debug.error =
        some ("JSON Parse Error: " ++ msg)) ∧
    (∀ payload json, api = .ok payload →
      parseJson (match payload with
        | some t => if t = "" then "\x7b\x7d" else t
        | none => "\x7b\x7d") = .ok json →
      (getSpellingFeedback imageBase64 tray avail ts lat api parseJson).feedback = json ∧
      (getSpellingFeedback imageBase64 tray avail ts lat api parseJson).debug.error =
        none) := by
  refine ⟨?_, ?_, ?_⟩
  · intro e he
    subst he
    exact ⟨rfl, rfl⟩
  · intro payload msg hok hparse
    subst hok
    unfold getSpellingFeedback
    constructor
    · simp only
      rw [hparse]
    · simp only
      rw [hparse]
  · intro payload json hok hparse
    subst hok
    unfold getSpellingFeedback
    constructor
    · simp only
      rw [hparse]
    · simp only
      rw [hparse]

/-- C8 witness: a concrete API failure and a concrete parse failure both
produce the fixed fallbacks. -/
theorem claim8_witness :
    (getSpellingFeedback "img" "CAT" ["A", "B"] "12:00" 5 (.error "boom")
      (fun _ => .error "bad json")).feedback =
      { word := "CAT", isValid := false, suggestion := some "Coach is resting." } ∧
    (getSpellingFeedback "img" "CAT" ["A", "B"] "12:00" 5 (.ok none)
      (fun _ => .error "bad json")).feedback =
      { word := "CAT", isValid := false, suggestion := some "Keep trying!" } :=
  ⟨((claim8_feedback_total "img" "CAT" ["A", "B"] "12:00" 5 (.error "boom")
      (fun _ => .error "bad json")).1 "boom" rfl).1,
   (((claim8_feedback_total "img" "CAT" ["A", "B"] "12:00" 5 (.ok none)
      (fun _ => .error "bad json")).2.1) none "bad json" rfl rfl).1⟩

/-- C2 (counterexample): the claim fails for a tray tile dropped outside the
capture band.  From a reachable-shaped state whose tray indices are exactly
{0, 1, 2} and whose dragged tile is a tray member hovering far from the tray
line, the release (here caused by a lost-hand frame) leaves the remaining
in-tray tiles with indices {1, 2} — a gap at 0, not {0, 1}. -/
theorem claim2_counterexample :
    dropOutsideState.activeTileId = some ('A', 0) ∧
    (∃ t ∈ dropOutsideState.tiles, t.isDragging = true ∧ t.inTray = true) ∧
    ((dropOutsideState.tiles.filter (·.inTray)).map (fun t => t.trayIndex.getD 0)) =
      [0, 1, 2] ∧
    (((stepFrame frameNoHand dropOutsideState).1.tiles.filter (·.inTray)).map
      (fun t => t.trayIndex.getD 0)) = [1, 2] ∧
    ¬ ((((stepFrame frameNoHand dropOutsideState).1.tiles.filter (·.inTray)).map
      (fun t => t.trayIndex.getD 0)).Perm
      (List.range ((stepFrame frameNoHand dropOutsideState).1.tiles.filter
        (·.inTray)).length)) := by
  decide

/-- C2 (amended): after a release that drops the tile inside the capture
band, the `trayIndex` values of the in-tray tiles are exactly
`{0, ..., n-1}`; a drop outside the band removes only the released tile from
the tray and leaves every other tile untouched (so when the released tile
was previously in the tray the remaining indices keep their old values and
may have a gap). -/
theorem claim2_amended (width : ℚ) (aid : TileId) (tiles : List LetterTile)
    (tile : LetterTile) (hn : (tiles.map (·.id)).Nodup)
    (hf : tiles.find? (fun t => decide (t.id = aid)) = some tile) :
    (|tile.y - TRAY_Y| < 100 →
      ((((releaseTile width aid tiles).1.filter (·.inTray)).map (·.trayIndex)).Perm
        ((List.range (((releaseTile width aid tiles).1.filter (·.inTray)).length)).map
          some))) ∧
    (¬ |tile.y - TRAY_Y| < 100 →
      (releaseTile width aid tiles).1.filter (·.inTray) =
        tiles.filter (fun t => t.inTray && decide (t.id ≠ aid))) := by
  constructor
  · intro hband
    have hp := release_inside_tray_perm width hn hf hband
    have hlen : ((releaseTile width aid tiles).1.filter (·.inTray)).length =
        (releaseOrder aid tiles).length := by
      have h1 := hp.length_eq
      simpa using h1
    rw [hlen]
    exact hp
  · intro hband
    exact release_outside_filter width hn hf hband

/-- C2 witness: the amended statement applied to the concrete drop-outside
state (its in-tray survivors keep indices 1 and 2). -/
theorem claim2_witness :
    ((dropOutsideState.tiles.map (·.id)).Nodup ∧
      dropOutsideState.tiles.find? (fun t => decide (t.id = ('A', 0))) =
        some dragTileA ∧
      ¬ |dragTileA.y - TRAY_Y| < 100) ∧
    (releaseTile 900 ('A', 0) dropOutsideState.tiles).1.filter (·.inTray) =
      dropOutsideState.tiles.filter (fun t => t.inTray && decide (t.id ≠ ('A', 0))) :=
  ⟨⟨by decide, by decide, by decide⟩,
   (claim2_amended 900 ('A', 0) dropOutsideState.tiles dragTileA (by decide)
     (by decide)).2 (by decide)⟩

/-- C10: a tray tile that is grabbed and released back inside the capture
band is appended to the END of the tray order: it gets `trayIndex = n - 1`
(`n` the number of in-tray tiles, the others having been renumbered
`0..n-2` in their previous relative order by the same reflow), and no
placement cue fires because its `inTray` flag was already true. -/
theorem claim10_regrab (width : ℚ) (aid : TileId) (tiles : List LetterTile)
    (tile : LetterTile) (hn : (tiles.map (·.id)).Nodup)
    (hf : tiles.find? (fun t => decide (t.id = aid)) = some tile)
    (hin : tile.inTray = true) (hband : |tile.y - TRAY_Y| < 100) :
    (releaseTile width aid tiles).2 = [] ∧
    (∀ u ∈ (releaseTile width aid tiles).1, u.id = aid →
      u.inTray = true ∧
      u.trayIndex = some ((tiles.filter (·.inTray)).length - 1) ∧
      u.isDragging = false) := by
  constructor
  · rw [releaseTile_inside width hf hband]
    simp [hin]
  · intro u hu hid
    obtain ⟨h1, h2, h3⟩ := release_inside_released_tile width hf hband u hu hid
    refine ⟨h1, ?_, h3⟩
    rw [h2, filter_inTray_length_of_mem_tray hn hf hin]
    simp

/-- C10 witness: re-grabbing the tray tile R (old index 0) of a 2-tile tray
and dropping it inside the band reassigns it to the last slot (index 1) and
fires no sound. -/
theorem claim10_witness :
    ((regrabState.tiles.map (·.id)).Nodup ∧
      regrabState.tiles.find? (fun t => decide (t.id = ('R', 0))) = some regrabTileR ∧
      regrabTileR.inTray = true ∧ |regrabTileR.y - TRAY_Y| < 100) ∧
    (releaseTile 900 ('R', 0) regrabState.tiles).2 = [] ∧
    (∀ u ∈ (releaseTile 900 ('R', 0) regrabState.tiles).1, u.id = ('R', 0) →
      u.inTray = true ∧
      u.trayIndex = some ((regrabState.tiles.filter (·.inTray)).length - 1) ∧
      u.isDragging = false) :=
  ⟨⟨by decide, by decide, by decide, by decide⟩,
   claim10_regrab 900 ('R', 0) regrabState.tiles regrabTileR (by decide) (by decide)
     (by decide) (by decide)⟩

/-- C1 (counterexample): a zero-hands frame while a tile is actively dragged
does NOT freeze the drag.  From a mid-drag state (active tile dragging, a
former tray member hovering outside the band), the lost-hand frame runs the
release path: `isDragging` is cleared, tray membership is decided (the tile
leaves the tray), and the active tile id is cleared — contradicting the
claim that none of these happen. -/
theorem claim1_counterexample :
    dropOutsideState.activeTileId = some ('A', 0) ∧
    (∃ t ∈ dropOutsideState.tiles, t.isDragging = true ∧ t.inTray = true) ∧
    frameNoHand.hand = none ∧
    (stepFrame frameNoHand dropOutsideState).1.activeTileId = none ∧
    (∀ t ∈ (stepFrame frameNoHand dropOutsideState).1.tiles, t.isDragging = false) ∧
    (∃ t ∈ (stepFrame frameNoHand dropOutsideState).1.tiles,
      t.id = ('A', 0) ∧ t.inTray = false) := by
  decide

/-- C1 (amended): a zero-hands frame while a tile is actively dragged resets
the pinch counter and confirmed flag, leaves the smoothed cursor value
untouched, and (because the effective pinch is then false) runs the full
release path: the active tile's `isDragging` is cleared, its tray membership
is decided by the capture band, and the active tile id is cleared. -/
theorem claim1_amended (inp : FrameInput) (s : GameState) (aid : TileId)
    (tile : LetterTile) (hh : inp.hand = none) (ha : s.activeTileId = some aid)
    (hn : (s.tiles.map (·.id)).Nodup)
    (hf : s.tiles.find? (fun t => decide (t.id = aid)) = some tile) :
    (stepFrame inp s).1.pinchFrames = 0 ∧
    (stepFrame inp s).1.pinchConfirmed = false ∧
    (stepFrame inp s).1.smoothHandPos = s.smoothHandPos ∧
    (stepFrame inp s).1.activeTileId = none ∧
    (∀ u ∈ (stepFrame inp s).1.tiles, u.id = aid →
      u.isDragging = false ∧ u.inTray = decide (|tile.y - TRAY_Y| < 100)) := by
  have hdr := dragStepOf_release_of_no_hand hh ha
  refine ⟨?_, ?_, ?_, ?_, ?_⟩
  · rw [stepFrame_pinchFrames]
    exact pinchFrames1_none s hh
  · rw [stepFrame_pinchConfirmed]
    exact pinchConfirmed1_none s hh
  · rw [stepFrame_smoothHandPos, handProcess_none s hh]
  · rw [stepFrame_activeTileId, hdr]
  · intro u hu hid
    rw [stepFrame_tiles, hdr] at hu
    unfold settle at hu
    obtain ⟨v, hv, rfl⟩ := List.mem_map.mp hu
    have hvid : v.id = aid := by rw [← settleTile_id v]; exact hid
    by_cases hband : |tile.y - TRAY_Y| < 100
    · obtain ⟨h1, _, h3⟩ := release_inside_released_tile inp.width hf hband v hv hvid
      rw [settleTile_isDragging, settleTile_inTray]
      exact ⟨h3, by simp [h1, hband]⟩
    · obtain ⟨h1, _, h3⟩ := release_outside_released_tile inp.width hn hf hband v hv hvid
      rw [settleTile_isDragging, settleTile_inTray]
      exact ⟨h3, by simp [h1, hband]⟩

/-- C1 witness: the amended statement applied at the concrete mid-drag state
and a lost-hand frame. -/
theorem claim1_witness :
    (frameNoHand.hand = none ∧
      dropOutsideState.activeTileId = some ('A', 0) ∧
      (dropOutsideState.tiles.map (·.id)).Nodup ∧
      dropOutsideState.tiles.find? (fun t => decide (t.id = ('A', 0))) =
        some dragTileA) ∧
    ((stepFrame frameNoHand dropOutsideState).1.pinchFrames = 0 ∧
     (stepFrame frameNoHand dropOutsideState).1.pinchConfirmed = false ∧
     (stepFrame frameNoHand dropOutsideState).1.smoothHandPos =
       dropOutsideState.smoothHandPos ∧
     (stepFrame frameNoHand dropOutsideState).1.activeTileId = none ∧
     (∀ u ∈ (stepFrame frameNoHand dropOutsideState).1.tiles, u.id = ('A', 0) →
       u.isDragging = false ∧ u.inTray = decide (|dragTileA.y - TRAY_Y| < 100))) :=
  ⟨⟨rfl, by decide, by decide, by decide⟩,
   claim1_amended frameNoHand dropOutsideState ('A', 0) dragTileA rfl (by decide)
     (by decide) (by decide)⟩

/-- C6: in every reachable state of the richer variant — including states
produced by replacing the pool mid-drag with a new round — every dragging
tile's id equals the active tile id, and at most one tile is dragging. -/
theorem claim6_at_most_one_dragging {s : GameState} (hr : Reach s) :
    (∀ t ∈ s.tiles, t.isDragging = true → s.activeTileId = some t.id) ∧
    s.tiles.countP (·.isDragging) ≤ 1 := by
  obtain ⟨hn, hd⟩ := reach_inv hr
  exact ⟨hd, countP_dragging_le_one hn hd⟩

/-- C6 witness: the invariant at a concrete reachable state obtained by a
round replacement after the initial round. -/
theorem claim6_witness :
    (nextWordUpdate 900 700 "DOG" (fun _ => 0)
      (initState 900 700 "CAT" (fun _ => 0) Difficulty.MEDIUM)).tiles.countP
        (·.isDragging) ≤ 1 :=
  (claim6_at_most_one_dragging
    (Reach.round 900 700 "DOG" (fun _ => 0)
      (Reach.init 900 700 "CAT" (fun _ => 0) Difficulty.MEDIUM))).2

/-- C5: on every tracked frame, the raw pinch boolean compares the fingertip
distance against the RELEASE threshold when a tile is active and the tighter
GRAB threshold otherwise (stated square-free: `d < t` iff `d² < t²` for
nonnegative `d`, `t`); the consecutive-pinch counter saturates at
`GRAB_CONFIRM_FRAMES + 1`; the confirmed flag is true exactly when the
updated counter has reached `GRAB_CONFIRM_FRAMES = 2` on a raw-pinching frame
or it was already true and not reset; it is unchanged by a counter reset
while a tile is active; and the drag controller receives the effective pinch
`raw AND (confirmed OR a tile is active)`. -/
theorem claim5_pinch_classifier (inp : FrameInput) (s : GameState) (hnd : HandInput)
    (hh : inp.hand = some hnd) :
    GRAB_CONFIRM_FRAMES = 2 ∧
    PINCH_GRAB_THRESHOLD < PINCH_RELEASE_THRESHOLD ∧
    (rawPinchingOf s.activeTileId.isSome hnd = true ↔
      pinchDistSq hnd <
        (if s.activeTileId.isSome then PINCH_RELEASE_THRESHOLD
         else PINCH_GRAB_THRESHOLD) ^ 2) ∧
    (stepFrame inp s).1.pinchFrames =
      (if rawPinchingOf s.activeTileId.isSome hnd then
        min (s.pinchFrames + 1) (GRAB_CONFIRM_FRAMES + 1) else 0) ∧
    (stepFrame inp s).1.pinchFrames ≤ GRAB_CONFIRM_FRAMES + 1 ∧
    ((stepFrame inp s).1.pinchConfirmed = true ↔
      ((rawPinchingOf s.activeTileId.isSome hnd = true ∧
        GRAB_CONFIRM_FRAMES ≤ (stepFrame inp s).1.pinchFrames) ∨
       (s.pinchConfirmed = true ∧
        (rawPinchingOf s.activeTileId.isSome hnd = true ∨
         s.activeTileId.isSome = true)))) ∧
    (rawPinchingOf s.activeTileId.isSome hnd = false →
      s.activeTileId.isSome = true →
      (stepFrame inp s).1.pinchConfirmed = s.pinchConfirmed) ∧
    dragStepOf inp s =
      dragStep inp.width (handProcess inp s).pos
        (effectivePinch (rawPinchingOf s.activeTileId.isSome hnd)
          ((stepFrame inp s).1.pinchConfirmed) s.activeTileId.isSome) s ∧
    (∀ raw pc active : Bool, effectivePinch raw pc active = (raw && (pc || active))) := by
  refine ⟨rfl, by decide, ?_, ?_, ?_, ?_, ?_, ?_, fun _ _ _ => rfl⟩
  · simp [rawPinchingOf, pinchThreshold]
  · rw [stepFrame_pinchFrames, pinchFrames1_some s hh]
    rfl
  · rw [stepFrame_pinchFrames, pinchFrames1_some s hh]
    unfold pinchFramesNext
    split
    · exact min_le_right _ _
    · exact Nat.zero_le _
  · rw [stepFrame_pinchConfirmed, stepFrame_pinchFrames, pinchConfirmed1_some s hh]
    exact pinchConfirmedNext_true_iff _ _ _ _
  · intro hraw hact
    rw [stepFrame_pinchConfirmed, pinchConfirmed1_some s hh, hraw, hact]
    rfl
  · rw [stepFrame_pinchConfirmed]
    unfold dragStepOf
    rw [handProcess_some s hh]

/-- C5 witness: the classifier equations at a concrete tracked frame (a
clearly pinching hand over a quiescent state with no active tile). -/
theorem claim5_witness :
    pinchFrame.hand = some pinchHand ∧
    (stepFrame pinchFrame emptyState).1.pinchFrames =
      (if rawPinchingOf emptyState.activeTileId.isSome pinchHand then
        min (emptyState.pinchFrames + 1) (GRAB_CONFIRM_FRAMES + 1) else 0) ∧
    ((stepFrame pinchFrame emptyState).1.pinchConfirmed = true ↔
      ((rawPinchingOf emptyState.activeTileId.isSome pinchHand = true ∧
        GRAB_CONFIRM_FRAMES ≤ (stepFrame pinchFrame emptyState).1.pinchFrames) ∨
       (emptyState.pinchConfirmed = true ∧
        (rawPinchingOf emptyState.activeTileId.isSome pinchHand = true ∨
         emptyState.activeTileId.isSome = true)))) := by
  have h := claim5_pinch_classifier pinchFrame emptyState pinchHand rfl
  exact ⟨rfl, h.2.2.2.1, h.2.2.2.2.2.1⟩

/-- C9: the simple variant's pool is exactly one tile per alphabet letter
(26 tiles, pairwise-distinct characters, no duplicates injected for the
target word); consequently, in every reachable state the tray word has
pairwise-distinct characters, and when the round's target word contains a
repeated letter the tray word can never equal it and the round is never
marked solved. -/
theorem claim9_alphabet_pool :
    (∀ (w h : ℚ) (js : ℕ → ℕ),
      (Simple.initPool w h js).length = 26 ∧
      ((Simple.initPool w h js).map (·.char)).Perm ALPHABET ∧
      ((Simple.initPool w h js).map (·.char)).Nodup) ∧
    (∀ s : GameState, Simple.Reach s →
      (trayWordOf s.tiles).toList.Nodup ∧
      (¬ s.currentWord.toList.Nodup →
        trayWordOf s.tiles ≠ s.currentWord ∧ s.isCorrect = false)) := by
  constructor
  · intro w h js
    have hperm : ((Simple.initPool w h js).map (·.char)).Perm ALPHABET := by
      rw [simple_initPool_map_char]
      exact shuffleArray_perm js ALPHABET
    refine ⟨?_, hperm, hperm.symm.nodup ALPHABET_nodup⟩
    have hlen := hperm.length_eq
    simpa using hlen
  · intro s hr
    obtain ⟨hperm, hcor⟩ := simple_reach_inv hr
    have hchars : (s.tiles.map (·.char)).Nodup := hperm.symm.nodup ALPHABET_nodup
    exact ⟨trayWordOf_nodup hchars,
      fun hdup => ⟨trayWordOf_ne_of_dup hchars hdup, hcor hdup⟩⟩

/-- C9 witness: a fresh round of the simple variant with the repeated-letter
target "SHEEP": the pool has 26 distinct letters, and the tray word can never
equal the target, which is never marked solved. -/
theorem claim9_witness :
    ¬ ("SHEEP".toList.Nodup) ∧
    (Simple.initPool 900 700 (fun _ => 0)).length = 26 ∧
    trayWordOf (Simple.initState 900 700 "SHEEP" (fun _ => 0)
      Difficulty.MEDIUM).tiles ≠
      (Simple.initState 900 700 "SHEEP" (fun _ => 0) Difficulty.MEDIUM).currentWord ∧
    (Simple.initState 900 700 "SHEEP" (fun _ => 0) Difficulty.MEDIUM).isCorrect =
      false := by
  refine ⟨by decide, (claim9_alphabet_pool.1 900 700 (fun _ => 0)).1, ?_, ?_⟩
  · exact ((claim9_alphabet_pool.2 _
      (Simple.Reach.init 900 700 "SHEEP" (fun _ => 0) Difficulty.MEDIUM)).2
        (by decide)).1
  · exact ((claim9_alphabet_pool.2 _
      (Simple.Reach.init 900 700 "SHEEP" (fun _ => 0) Difficulty.MEDIUM)).2
        (by decide)).2
